import Mathlib

/-!
Verification of the trigger engine of `wenwa_keys_mt`
(`src/triggers/auto_be.py`, `src/triggers/partial_tp.py`,
`src/mt5_manager/utils.py`, `src/mt5_manager/trading.py`).

Modelling conventions (shallow embedding):
* Python `float` prices, volumes and percentages are modelled as `ℚ`.
  Every arithmetic step of the code is translated literally; `round` is
  modelled as round-half-to-even, which is Python's semantics.
* A Python `dict` is modelled as an association list that keeps insertion
  order: updating an existing key replaces its value in place, a new key is
  appended (`dinsert`), `del` removes the key (`dremove`).
* The three external gates (MetaTrader position lookup, bid/ask quotes, and
  the position-modifying actions) are an explicit environment `Env` of
  functions; an action call may also raise, modelled by `ActionOutcome.raise`.
* The JSON backing file is modelled as the list of serialized records the
  manager would write (`BEState.file` / `PTPState.file`).  `json.dump`
  writes the integer dict keys of the breakeven manager as their decimal
  strings and `_load_triggers` applies `int()` to each key; this coding is a
  bijection on integers, so the file model keeps the keys as integers.
  JSON floats written by `json.dump` reload to the identical float, so the
  `ℚ` model of a price round-trips exactly as the float does.
-/

namespace Wenwa

/-! ### Python dict as an insertion-ordered association list -/

variable {κ ν : Type} [DecidableEq κ]

/-- `d[k]` lookup (first matching key). -/
def dget (k : κ) : List (κ × ν) → Option ν
  | [] => none
  | (k', v) :: r => if k' = k then some v else dget k r

/-- `d[k] = v`: replace the value of an existing key in place, otherwise
append the new binding — Python dict assignment. -/
def dinsert (k : κ) (v : ν) : List (κ × ν) → List (κ × ν)
  | [] => [(k, v)]
  | (k', v') :: r => if k' = k then (k, v) :: r else (k', v') :: dinsert k v r

/-- `del d[k]` — removes the binding of `k`. -/
def dremove (k : κ) : List (κ × ν) → List (κ × ν)
  | [] => []
  | (k', v') :: r => if k' = k then r else (k', v') :: dremove k r

/-! ### JSON values and records -/

/-- A JSON scalar as it appears in the trigger files. -/
inductive JVal : Type where
  | jint (n : Int)
  | jstr (v : String)
  | jnum (v : ℚ)
  | jbool (v : Bool)
  | jnull
deriving DecidableEq, Repr

/-- One serialized trigger: a JSON object, field name to value. -/
abbrev Record : Type := List (String × JVal)

/-! ### Positions and the external gates -/

/-- `mt5.ORDER_TYPE_BUY = 0`, `BUY_LIMIT = 2`, `BUY_STOP = 4`
(`utils.is_buy_order`). -/
def is_buy_order (t : Int) : Bool := t = 0 || t = 2 || t = 4

/-- The fields of `PositionInfo` (`mt5_manager/positions.py`) that the
trigger engine reads. -/
structure PositionInfo where
  ticket : Int
  symbol : String
  type : Int
  volume : ℚ
  price_open : ℚ
  price_current : ℚ
deriving DecidableEq, Repr

/-- `PositionInfo.is_buy()`. -/
def PositionInfo.is_buy (p : PositionInfo) : Bool := is_buy_order p.type

/-- Result of an Action Gate call (`OrderResult`, reduced to the fields the
trigger engine reads: `success` and, for partial close, `volume`). -/
structure OrderResult where
  success : Bool
  volume : Option ℚ := none
deriving DecidableEq, Repr

/-- An Action Gate call either returns an `OrderResult` or raises. -/
inductive ActionOutcome : Type where
  | ok (r : OrderResult)
  | raise
deriving DecidableEq, Repr

/-- The external world during one engine operation: the Position Gate,
the Market Data Gate, the two Action Gate entry points, the connection
flag and the current wall-clock timestamps. -/
structure Env where
  connected : Bool
  getPosition : Int → Option PositionInfo
  getBid : String → Option ℚ
  getAsk : String → Option ℚ
  setSlToEntry : Int → ActionOutcome
  closeCustom : Int → ℚ → ActionOutcome
  now : String
  nowCompact : String

/-! ### Breakeven triggers (`triggers/auto_be.py`) -/

/-- `BETrigger` dataclass. -/
structure BETrigger where
  ticket : Int
  symbol : String
  trigger_price : ℚ
  created_at : String
  is_buy : Bool
  executed : Bool := false
  executed_at : Option String := none
deriving DecidableEq, Repr

/-- `BETrigger.to_dict` — `dataclasses.asdict`, fields in declaration
order. -/
def BETrigger.to_dict (t : BETrigger) : Record :=
  [("ticket", .jint t.ticket),
   ("symbol", .jstr t.symbol),
   ("trigger_price", .jnum t.trigger_price),
   ("created_at", .jstr t.created_at),
   ("is_buy", .jbool t.is_buy),
   ("executed", .jbool t.executed),
   ("executed_at", match t.executed_at with | none => .jnull | some v => .jstr v)]

/-- Field names of the `BETrigger` dataclass. -/
def beFields : List String :=
  ["ticket", "symbol", "trigger_price", "created_at", "is_buy", "executed", "executed_at"]

/-- Reads the optional `executed` field (dataclass default `False`). -/
def readExecuted : Option JVal → Option Bool
  | none => some false
  | some (.jbool v) => some v
  | some _ => none

/-- Reads the optional `executed_at` field (dataclass default `None`). -/
def readExecutedAt : Option JVal → Option (Option String)
  | none => some none
  | some .jnull => some none
  | some (.jstr v) => some (some v)
  | some _ => none

/-- `BETrigger.from_dict(data)`, i.e. `cls(**data)`: raises `TypeError`
(here: `none`) when a key is not a dataclass field name or a required field
is missing.  The dataclass does not type-check field values, but every
record produced by `to_dict` is well-typed; the model requires the declared
types. -/
def BETrigger.from_dict (r : Record) : Option BETrigger :=
  if r.all (fun kv => beFields.contains kv.1) then
    match dget "ticket" r, dget "symbol" r, dget "trigger_price" r,
          dget "created_at" r, dget "is_buy" r,
          readExecuted (dget "executed" r), readExecutedAt (dget "executed_at" r) with
    | some (.jint ti), some (.jstr sy), some (.jnum tp), some (.jstr ca),
      some (.jbool ib), some ex, some exAt =>
        some { ticket := ti, symbol := sy, trigger_price := tp, created_at := ca,
               is_buy := ib, executed := ex, executed_at := exAt }
    | _, _, _, _, _, _, _ => none
  else none

/-- In-memory state of `AutoBEManager`: the trigger dict, the content of
`auto_be_triggers.json`, and the monitoring flag. -/
structure BEState where
  triggers : List (Int × BETrigger)
  file : List (Int × Record)
  monitoring : Bool
deriving DecidableEq

/-- `_save_triggers`: serialize the whole mapping and overwrite the file. -/
def saveBE (m : List (Int × BETrigger)) : List (Int × Record) :=
  m.map (fun p => (p.1, p.2.to_dict))

/-- A state after `_save_triggers`. -/
def BEState.save (s : BEState) : BEState := { s with file := saveBE s.triggers }

/-- `AutoBEManager.add_trigger`. -/
def addTriggerBE (env : Env) (s : BEState) (ticket : Int) (trigger_price : ℚ) :
    BEState × Bool × String :=
  match env.getPosition ticket with
  | none => (s, false, "Position not found")
  | some position =>
    if position.is_buy then
      if trigger_price ≤ position.price_open then
        (s, false, "Trigger price must be above entry")
      else
        let trigger : BETrigger :=
          { ticket := ticket, symbol := position.symbol,
            trigger_price := trigger_price, created_at := env.now,
            is_buy := position.is_buy }
        let s' := BEState.save { s with triggers := dinsert ticket trigger s.triggers }
        let s'' := if s'.monitoring then s' else { s' with monitoring := true }
        (s'', true, "BE trigger set")
    else
      if trigger_price ≥ position.price_open then
        (s, false, "Trigger price must be below entry")
      else
        let trigger : BETrigger :=
          { ticket := ticket, symbol := position.symbol,
            trigger_price := trigger_price, created_at := env.now,
            is_buy := position.is_buy }
        let s' := BEState.save { s with triggers := dinsert ticket trigger s.triggers }
        let s'' := if s'.monitoring then s' else { s' with monitoring := true }
        (s'', true, "BE trigger set")

/-- `AutoBEManager.remove_trigger`. -/
def removeTriggerBE (s : BEState) (ticket : Int) : BEState × Bool × String :=
  match dget ticket s.triggers with
  | none => (s, false, "No BE trigger found")
  | some _ =>
    (BEState.save { s with triggers := dremove ticket s.triggers }, true, "BE trigger removed")

/-- `AutoBEManager.get_all_triggers`: the active triggers. -/
def getAllTriggersBE (s : BEState) : List BETrigger :=
  (s.triggers.map Prod.snd).filter (fun t => !t.executed)

/-- `AutoBEManager.clear_executed_triggers`. -/
def clearExecutedBE (s : BEState) : BEState :=
  BEState.save { s with triggers := s.triggers.filter (fun p => !p.2.executed) }

/-- One Action Gate invocation made by the breakeven monitor, recorded with
the dict key under which the checked trigger was stored and the trigger
value itself (the gate receives `trig.ticket`). -/
structure BECall where
  key : Int
  trig : BETrigger
deriving DecidableEq, Repr

/-- `AutoBEManager._execute_trigger` for the trigger stored under dict key
`k`.  `trigger.executed = True` mutates the object in place: in the model,
the binding of `k` is replaced iff `k` still holds this trigger. -/
def executeTriggerBE (env : Env) (s : BEState) (k : Int) (t : BETrigger) :
    BEState × List BECall :=
  match env.setSlToEntry t.ticket with
  | .raise => (s, [⟨k, t⟩])
  | .ok r =>
    if r.success then
      let t' : BETrigger := { t with executed := true, executed_at := some env.now }
      let tr' := if dget k s.triggers = some t then dinsert k t' s.triggers else s.triggers
      (BEState.save { s with triggers := tr' }, [⟨k, t⟩])
    else (s, [⟨k, t⟩])

/-- `AutoBEManager._check_trigger` for the trigger stored under dict key
`k`. -/
def checkTriggerBE (env : Env) (s : BEState) (k : Int) (t : BETrigger) :
    BEState × List BECall :=
  match env.getPosition t.ticket with
  | none => ((removeTriggerBE s t.ticket).1, [])
  | some _position =>
    match (if t.is_buy then env.getBid t.symbol else env.getAsk t.symbol) with
    | none => (s, [])
    | some current_price =>
      let triggered : Bool :=
        if t.is_buy then decide (current_price ≥ t.trigger_price)
        else decide (current_price ≤ t.trigger_price)
      if triggered then executeTriggerBE env s k t else (s, [])

/-- One snapshot entry processed against the evolving state, accumulating
the Action Gate calls. -/
def beTickStep (env : Env) (acc : BEState × List BECall) (p : Int × BETrigger) :
    BEState × List BECall :=
  let r := checkTriggerBE env acc.1 p.1 p.2
  (r.1, acc.2 ++ r.2)

/-- One iteration of the `_monitor_triggers` loop body: when connected,
snapshot the active triggers and check each against the evolving state. -/
def tickBE (env : Env) (s : BEState) : BEState × List BECall :=
  if env.connected then
    (s.triggers.filter (fun p => !p.2.executed)).foldl (beTickStep env) (s, [])
  else (s, [])

/-- The engine operations of `AutoBEManager` visible to clients and the
monitor loop. -/
inductive BEOp : Type where
  | add (ticket : Int) (price : ℚ)
  | remove (ticket : Int)
  | clearExec
  | tick
deriving DecidableEq, Repr

/-- One engine operation of `AutoBEManager`, with the Action Gate calls it
makes. -/
def stepBE (env : Env) (op : BEOp) (s : BEState) : BEState × List BECall :=
  match op with
  | .add ticket price => ((addTriggerBE env s ticket price).1, [])
  | .remove ticket => ((removeTriggerBE s ticket).1, [])
  | .clearExec => (clearExecutedBE s, [])
  | .tick => tickBE env s

/-- Persisted-file input for `_load_triggers`: the file may be missing,
unreadable as JSON, or a parsed record collection. -/
inductive FileData (κ : Type) : Type where
  | missing
  | corrupt
  | records (rs : List (κ × Record))

/-- The dict comprehension of `AutoBEManager._load_triggers`: every record
must parse, otherwise the comprehension raises and the whole load is
abandoned. -/
def loadEntriesBE : List (Int × Record) → Option (List (Int × BETrigger))
  | [] => some []
  | p :: r =>
    match BETrigger.from_dict p.2, loadEntriesBE r with
    | some t, some m => some ((p.1, t) :: m)
    | _, _ => none

/-- `AutoBEManager._load_triggers`: any exception (missing file handled
separately, unreadable JSON, or a record the dataclass rejects) is caught
and logged, leaving `self.triggers` unchanged; on success the mapping is
replaced wholesale and monitoring starts when an active trigger exists. -/
def loadTriggersBE (fd : FileData Int) (s : BEState) : BEState :=
  match fd with
  | .missing => s
  | .corrupt => s
  | .records rs =>
    match loadEntriesBE rs with
    | none => s
    | some m =>
      let s' := { s with triggers := m }
      let activeCount := ((m.map Prod.snd).filter (fun t => !t.executed)).length
      if 0 < activeCount then { s' with monitoring := true } else s'

/-! ### Partial take-profit triggers (`triggers/partial_tp.py`) -/

/-- `PTPTrigger` dataclass. -/
structure PTPTrigger where
  trigger_id : String
  ticket : Int
  symbol : String
  trigger_price : ℚ
  close_percentage : ℚ
  created_at : String
  is_buy : Bool
  executed : Bool := false
  executed_at : Option String := none
  volume_closed : Option ℚ := none
deriving DecidableEq, Repr

/-- `PTPTrigger.to_dict` — `dataclasses.asdict`, fields in declaration
order. -/
def PTPTrigger.to_dict (t : PTPTrigger) : Record :=
  [("trigger_id", .jstr t.trigger_id),
   ("ticket", .jint t.ticket),
   ("symbol", .jstr t.symbol),
   ("trigger_price", .jnum t.trigger_price),
   ("close_percentage", .jnum t.close_percentage),
   ("created_at", .jstr t.created_at),
   ("is_buy", .jbool t.is_buy),
   ("executed", .jbool t.executed),
   ("executed_at", match t.executed_at with | none => .jnull | some v => .jstr v),
   ("volume_closed", match t.volume_closed with | none => .jnull | some v => .jnum v)]

/-- Field names of the `PTPTrigger` dataclass. -/
def ptpFields : List String :=
  ["trigger_id", "ticket", "symbol", "trigger_price", "close_percentage",
   "created_at", "is_buy", "executed", "executed_at", "volume_closed"]

/-- Reads the optional `volume_closed` field (dataclass default `None`). -/
def readVolumeClosed : Option JVal → Option (Option ℚ)
  | none => some none
  | some .jnull => some none
  | some (.jnum v) => some (some v)
  | some _ => none

/-- `PTPTrigger.from_dict(data)`, i.e. `cls(**data)`; `none` models the
`TypeError` raised for an unknown key or a missing required field. -/
def PTPTrigger.from_dict (r : Record) : Option PTPTrigger :=
  if r.all (fun kv => ptpFields.contains kv.1) then
    match dget "trigger_id" r, dget "ticket" r, dget "symbol" r,
          dget "trigger_price" r, dget "close_percentage" r,
          dget "created_at" r, dget "is_buy" r,
          readExecuted (dget "executed" r), readExecutedAt (dget "executed_at" r),
          readVolumeClosed (dget "volume_closed" r) with
    | some (.jstr tid), some (.jint ti), some (.jstr sy), some (.jnum tp),
      some (.jnum cp), some (.jstr ca), some (.jbool ib), some ex, some exAt,
      some vc =>
        some { trigger_id := tid, ticket := ti, symbol := sy, trigger_price := tp,
               close_percentage := cp, created_at := ca, is_buy := ib,
               executed := ex, executed_at := exAt, volume_closed := vc }
    | _, _, _, _, _, _, _, _, _, _ => none
  else none

/-- In-memory state of `PartialTPManager`: the trigger dict keyed by
`trigger_id`, the content of `partial_tp_triggers.json`, and the monitoring
flag. -/
structure PTPState where
  triggers : List (String × PTPTrigger)
  file : List (String × Record)
  monitoring : Bool
deriving DecidableEq

/-- `PartialTPManager._save_triggers`. -/
def savePTP (m : List (String × PTPTrigger)) : List (String × Record) :=
  m.map (fun p => (p.1, p.2.to_dict))

/-- A state after `PartialTPManager._save_triggers`. -/
def PTPState.save (s : PTPState) : PTPState := { s with file := savePTP s.triggers }

/-- `PartialTPManager._generate_trigger_id`:
`f"{ticket}_{timestamp}"` with a microsecond timestamp. -/
def genTriggerId (env : Env) (ticket : Int) : String :=
  toString ticket ++ "_" ++ env.nowCompact

/-- `PartialTPManager.add_trigger`. -/
def addTriggerPTP (env : Env) (s : PTPState) (ticket : Int) (trigger_price : ℚ)
    (close_percentage : ℚ) : PTPState × Bool × String :=
  if close_percentage ≤ 0 ∨ close_percentage ≥ 100 then
    (s, false, "Close percentage must be between 0 and 100")
  else
    match env.getPosition ticket with
    | none => (s, false, "Position not found")
    | some position =>
      if position.is_buy then
        if trigger_price ≤ position.price_current then
          (s, false, "Trigger price must be above current price")
        else
          let tid := genTriggerId env ticket
          let trigger : PTPTrigger :=
            { trigger_id := tid, ticket := ticket, symbol := position.symbol,
              trigger_price := trigger_price, close_percentage := close_percentage,
              created_at := env.now, is_buy := position.is_buy }
          let s' := PTPState.save { s with triggers := dinsert tid trigger s.triggers }
          let s'' := if s'.monitoring then s' else { s' with monitoring := true }
          (s'', true, "PTP trigger set")
      else
        if trigger_price ≥ position.price_current then
          (s, false, "Trigger price must be below current price")
        else
          let tid := genTriggerId env ticket
          let trigger : PTPTrigger :=
            { trigger_id := tid, ticket := ticket, symbol := position.symbol,
              trigger_price := trigger_price, close_percentage := close_percentage,
              created_at := env.now, is_buy := position.is_buy }
          let s' := PTPState.save { s with triggers := dinsert tid trigger s.triggers }
          let s'' := if s'.monitoring then s' else { s' with monitoring := true }
          (s'', true, "PTP trigger set")

/-- `PartialTPManager.remove_trigger`. -/
def removeTriggerPTP (s : PTPState) (trigger_id : String) : PTPState × Bool × String :=
  match dget trigger_id s.triggers with
  | none => (s, false, "Trigger not found")
  | some _ =>
    (PTPState.save { s with triggers := dremove trigger_id s.triggers }, true,
     "PTP trigger removed")

/-- `PartialTPManager.get_all_triggers`: the active triggers. -/
def getAllTriggersPTP (s : PTPState) : List PTPTrigger :=
  (s.triggers.map Prod.snd).filter (fun t => !t.executed)

/-- `PartialTPManager.clear_executed_triggers`. -/
def clearExecutedPTP (s : PTPState) : PTPState :=
  PTPState.save { s with triggers := s.triggers.filter (fun p => !p.2.executed) }

/-- One Action Gate invocation made by the partial-TP monitor (the gate
receives `trig.ticket` and `trig.close_percentage`). -/
structure PTPCall where
  key : String
  trig : PTPTrigger
deriving DecidableEq, Repr

/-- `PartialTPManager._execute_trigger` for the trigger stored under dict
key `k`; in-place object mutation modelled as for the breakeven manager. -/
def executeTriggerPTP (env : Env) (s : PTPState) (k : String) (t : PTPTrigger) :
    PTPState × List PTPCall :=
  match env.closeCustom t.ticket t.close_percentage with
  | .raise => (s, [⟨k, t⟩])
  | .ok r =>
    if r.success then
      let t' : PTPTrigger :=
        { t with executed := true, executed_at := some env.now,
                 volume_closed := r.volume }
      let tr' := if dget k s.triggers = some t then dinsert k t' s.triggers else s.triggers
      (PTPState.save { s with triggers := tr' }, [⟨k, t⟩])
    else (s, [⟨k, t⟩])

/-- `PartialTPManager._check_trigger` for the trigger stored under dict key
`k`. -/
def checkTriggerPTP (env : Env) (s : PTPState) (k : String) (t : PTPTrigger) :
    PTPState × List PTPCall :=
  match env.getPosition t.ticket with
  | none => ((removeTriggerPTP s t.trigger_id).1, [])
  | some _position =>
    match (if t.is_buy then env.getBid t.symbol else env.getAsk t.symbol) with
    | none => (s, [])
    | some current_price =>
      let triggered : Bool :=
        if t.is_buy then decide (current_price ≥ t.trigger_price)
        else decide (current_price ≤ t.trigger_price)
      if triggered then executeTriggerPTP env s k t else (s, [])

/-- One partial-TP snapshot entry processed against the evolving state. -/
def ptpTickStep (env : Env) (acc : PTPState × List PTPCall)
    (p : String × PTPTrigger) : PTPState × List PTPCall :=
  let r := checkTriggerPTP env acc.1 p.1 p.2
  (r.1, acc.2 ++ r.2)

/-- One iteration of the partial-TP `_monitor_triggers` loop body. -/
def tickPTP (env : Env) (s : PTPState) : PTPState × List PTPCall :=
  if env.connected then
    (s.triggers.filter (fun p => !p.2.executed)).foldl (ptpTickStep env) (s, [])
  else (s, [])

/-- The dict comprehension of `PartialTPManager._load_triggers`. -/
def loadEntriesPTP : List (String × Record) → Option (List (String × PTPTrigger))
  | [] => some []
  | p :: r =>
    match PTPTrigger.from_dict p.2, loadEntriesPTP r with
    | some t, some m => some ((p.1, t) :: m)
    | _, _ => none

/-- `PartialTPManager._load_triggers`. -/
def loadTriggersPTP (fd : FileData String) (s : PTPState) : PTPState :=
  match fd with
  | .missing => s
  | .corrupt => s
  | .records rs =>
    match loadEntriesPTP rs with
    | none => s
    | some m =>
      let s' := { s with triggers := m }
      let activeCount := ((m.map Prod.snd).filter (fun t => !t.executed)).length
      if 0 < activeCount then { s' with monitoring := true } else s'

/-! ### Lot normalization and custom close volume
(`mt5_manager/utils.normalize_lot`, `mt5_manager/trading.close_position_custom`) -/

/-- Python's builtin `round` to an integer: round half to even. -/
def pyRound (q : ℚ) : ℤ :=
  let f := ⌊q⌋
  let r := q - f
  if r < 1 / 2 then f
  else if 1 / 2 < r then f + 1
  else if 2 ∣ f then f else f + 1

/-- Python's `round(x, n)`. -/
def pyRoundTo (n : ℕ) (q : ℚ) : ℚ := (pyRound (q * 10 ^ n) : ℚ) / 10 ^ n

/-- The volume constraints of a symbol (`symbol_info`). -/
structure SymbolInfo where
  volume_min : ℚ
  volume_max : ℚ
  volume_step : ℚ
deriving DecidableEq, Repr

/-- `utils.normalize_lot` for a known symbol: snap to the volume step,
clamp to min/max, then round to the decimal places implied by the step. -/
def normalize_lot (si : SymbolInfo) (lot : ℚ) : ℚ :=
  let normalized := (pyRound (lot / si.volume_step) : ℚ) * si.volume_step
  let clamped := max si.volume_min (min normalized si.volume_max)
  if si.volume_step ≥ 1 then pyRoundTo 0 clamped
  else if si.volume_step ≥ 1 / 10 then pyRoundTo 1 clamped
  else pyRoundTo 2 clamped

/-- The close volume requested by
`TradingManager.close_position_custom(ticket, percentage)` for a position
of the given volume: `position.volume * (percentage / 100.0)` normalized
to the symbol's volume step. -/
def close_custom_volume (position_volume percentage : ℚ) (si : SymbolInfo) : ℚ :=
  normalize_lot si (position_volume * (percentage / 100))

/-- Well-keyed breakeven dict: `add_trigger` stores every trigger under its
own ticket, so in every reachable state the key of a binding is the
trigger's ticket. -/
def wfBE (l : List (Int × BETrigger)) : Prop := ∀ p ∈ l, p.2.ticket = p.1

/-- Well-keyed partial-TP dict: every trigger is stored under its own
`trigger_id`. -/
def wfPTP (l : List (String × PTPTrigger)) : Prop := ∀ p ∈ l, p.2.trigger_id = p.1

/-- How one breakeven monitor pass may evolve the trigger dict: every
binding after the pass comes from a binding of the same key before it,
either unchanged or — only for a not-yet-executed trigger whose
`set_sl_to_entry` call succeeded — marked executed with `executed_at`
set. -/
def evolBE (env : Env) (a b : List (Int × BETrigger)) : Prop :=
  ∀ k t', dget k b = some t' → ∃ t, dget k a = some t ∧
    (t' = t ∨ (t.executed = false ∧
      (∃ res, env.setSlToEntry t.ticket = ActionOutcome.ok res ∧
        res.success = true) ∧
      t' = { t with executed := true, executed_at := some env.now }))

/-- How one partial-TP monitor pass may evolve the trigger dict. -/
def evolPTP (env : Env) (a b : List (String × PTPTrigger)) : Prop :=
  ∀ k t', dget k b = some t' → ∃ t, dget k a = some t ∧
    (t' = t ∨ (t.executed = false ∧
      ∃ res, env.closeCustom t.ticket t.close_percentage = ActionOutcome.ok res ∧
        res.success = true ∧
        t' = { t with executed := true,
                      executed_at := some env.now,
                      volume_closed := res.volume }))

/-! ### Concrete fixtures used by witness theorems -/

/-- An environment whose gates give the same answer for every symbol and
ticket. -/
def mkEnv (pos : Option PositionInfo) (bid ask : Option ℚ)
    (beOut ptpOut : ActionOutcome) : Env :=
  { connected := true, getPosition := fun _ => pos,
    getBid := fun _ => bid, getAsk := fun _ => ask,
    setSlToEntry := fun _ => beOut, closeCustom := fun _ _ => ptpOut,
    now := "T1", nowCompact := "T1c" }

/-- A buy position: ticket 7, entry 1, current price 1, volume 0.2. -/
def posW : PositionInfo :=
  { ticket := 7, symbol := "EURUSD", type := 0, volume := 1 / 5,
    price_open := 1, price_current := 1 }

/-- An active long breakeven trigger on ticket 7 at 1.1. -/
def beTrigW : BETrigger :=
  { ticket := 7, symbol := "EURUSD", trigger_price := 11 / 10,
    created_at := "T0", is_buy := true }

/-- An active long partial-close trigger on ticket 7 at 1.1, 50%. -/
def ptpTrigW : PTPTrigger :=
  { trigger_id := "7_T0", ticket := 7, symbol := "EURUSD",
    trigger_price := 11 / 10, close_percentage := 50, created_at := "T0",
    is_buy := true }

/-- The empty breakeven manager state. -/
def beS0 : BEState := { triggers := [], file := [], monitoring := false }

/-- A breakeven state holding exactly `beTrigW`, file in sync. -/
def beS1 : BEState :=
  { triggers := [(7, beTrigW)], file := saveBE [(7, beTrigW)], monitoring := true }

/-- `beTrigW` after execution. -/
def beTrigWX : BETrigger :=
  { beTrigW with executed := true, executed_at := some "T0x" }

/-- A breakeven state whose only trigger is already executed. -/
def beS1x : BEState :=
  { triggers := [(7, beTrigWX)], file := saveBE [(7, beTrigWX)],
    monitoring := true }

/-- The empty partial-TP manager state. -/
def ptpS0 : PTPState := { triggers := [], file := [], monitoring := false }

/-- A partial-TP state holding exactly `ptpTrigW`, file in sync. -/
def ptpS1 : PTPState :=
  { triggers := [("7_T0", ptpTrigW)], file := savePTP [("7_T0", ptpTrigW)],
    monitoring := true }

/-- A well-formed serialized breakeven trigger record. -/
def goodBERec : Record := BETrigger.to_dict beTrigW

/-- A malformed record: `ticket` present but all other required dataclass
fields missing. -/
def badBERec : Record := [("ticket", .jint 8)]

/-- A record that is well-formed except for one unknown extra field. -/
def extraBERec : Record := BETrigger.to_dict beTrigW ++ [("note", .jstr "manual")]

/-- A Python dict never holds two bindings of the same key; every state
reachable through the managers' operations satisfies this. -/
def keysNodup (l : List (κ × ν)) : Prop := (l.map Prod.fst).Nodup

instance (l : List (κ × ν)) : Decidable (keysNodup l) := by
  unfold keysNodup; infer_instance

instance (l : List (Int × BETrigger)) : Decidable (wfBE l) := by
  unfold wfBE; infer_instance

instance (l : List (String × PTPTrigger)) : Decidable (wfPTP l) := by
  unfold wfPTP; infer_instance

/-! ## Lemmas about the dict model -/

theorem dget_dinsert_self (k : κ) (v : ν) (l : List (κ × ν)) :
    dget k (dinsert k v l) = some v := by
  induction l with
  | nil => simp [dinsert, dget]
  | cons p r ih =>
    by_cases h : p.1 = k
    · simp [dinsert, dget, h]
    · simpa [dinsert, dget, h] using ih

theorem dget_dinsert_ne (j k : κ) (v : ν) (l : List (κ × ν)) (h : j ≠ k) :
    dget j (dinsert k v l) = dget j l := by
  have hkj : ¬k = j := fun hh => h hh.symm
  induction l with
  | nil => simp [dinsert, dget, hkj]
  | cons p r ih =>
    obtain ⟨a, b⟩ := p
    by_cases hk : a = k
    · subst hk
      simp [dinsert, dget, hkj]
    · by_cases hj : a = j <;> simp [dinsert, dget, hk, hj, h, ih]

theorem dget_dremove_ne (j k : κ) (l : List (κ × ν)) (h : j ≠ k) :
    dget j (dremove k l) = dget j l := by
  have hkj : ¬k = j := fun hh => h hh.symm
  induction l with
  | nil => simp [dremove]
  | cons p r ih =>
    obtain ⟨a, b⟩ := p
    by_cases hk : a = k
    · subst hk
      simp [dremove, dget, hkj]
    · by_cases hj : a = j <;> simp [dremove, dget, hk, hj, h, ih]

theorem dget_mem {k : κ} {v : ν} {l : List (κ × ν)} (h : dget k l = some v) :
    (k, v) ∈ l := by
  induction l with
  | nil => simp [dget] at h
  | cons p r ih =>
    by_cases hk : p.1 = k
    · subst hk
      simp [dget] at h
      subst h
      exact List.mem_cons_self _ _
    · simp [dget, hk] at h
      exact List.mem_cons_of_mem _ (ih h)

theorem fst_mem_of_dget {k : κ} {v : ν} {l : List (κ × ν)} (h : dget k l = some v) :
    k ∈ l.map Prod.fst := by
  exact List.mem_map_of_mem Prod.fst (dget_mem h)

theorem dget_dremove_self (k : κ) (l : List (κ × ν)) (hnd : keysNodup l) :
    dget k (dremove k l) = none := by
  induction l with
  | nil => simp [dremove, dget]
  | cons p r ih =>
    obtain ⟨a, b⟩ := p
    rw [keysNodup, List.map_cons, List.nodup_cons] at hnd
    by_cases hk : a = k
    · subst hk
      have hd : dremove a ((a, b) :: r) = r := by simp [dremove]
      rw [hd]
      cases hget : dget a r with
      | none => rfl
      | some w => exact absurd (List.mem_map_of_mem Prod.fst (dget_mem hget)) hnd.1
    · simp [dremove, dget, hk]
      exact ih hnd.2

theorem mem_dget {k : κ} {v : ν} {l : List (κ × ν)} (hnd : keysNodup l)
    (h : (k, v) ∈ l) : dget k l = some v := by
  induction l with
  | nil => simp at h
  | cons p r ih =>
    obtain ⟨a, b⟩ := p
    rw [keysNodup, List.map_cons, List.nodup_cons] at hnd
    rcases List.mem_cons.mp h with h1 | h2
    · cases h1
      simp [dget]
    · by_cases hk : a = k
      · subst hk
        exact absurd (List.mem_map_of_mem Prod.fst h2) hnd.1
      · simp [dget, hk]
        exact ih hnd.2 h2

theorem keys_dinsert (k : κ) (v : ν) (l : List (κ × ν)) :
    (dinsert k v l).map Prod.fst =
      if k ∈ l.map Prod.fst then l.map Prod.fst else l.map Prod.fst ++ [k] := by
  induction l with
  | nil => simp [dinsert]
  | cons p r ih =>
    obtain ⟨a, b⟩ := p
    by_cases hk : a = k
    · subst hk
      simp [dinsert]
    · have hka : ¬k = a := fun hh => hk hh.symm
      simp only [dinsert, hk, if_false, List.map_cons, ih, List.mem_cons, hka,
        false_or]
      by_cases hmem : k ∈ r.map Prod.fst <;> simp [hmem]

theorem keysNodup_dinsert (k : κ) (v : ν) (l : List (κ × ν)) (hnd : keysNodup l) :
    keysNodup (dinsert k v l) := by
  rw [keysNodup, keys_dinsert]
  by_cases hmem : k ∈ l.map Prod.fst
  · simpa [hmem] using hnd
  · simp only [hmem, if_false]
    refine List.Nodup.append hnd (List.nodup_singleton k) ?_
    intro x hx hk'
    simp at hk'
    subst hk'
    exact hmem hx

theorem keys_dremove_sublist (k : κ) (l : List (κ × ν)) :
    ((dremove k l).map Prod.fst).Sublist (l.map Prod.fst) := by
  induction l with
  | nil => simp [dremove]
  | cons p r ih =>
    obtain ⟨a, b⟩ := p
    by_cases hk : a = k
    · simp only [dremove, hk, if_pos rfl, List.map_cons]
      exact List.sublist_cons_self _ _
    · simp only [dremove, hk, if_false, List.map_cons]
      exact List.Sublist.cons₂ _ ih

theorem keysNodup_dremove (k : κ) (l : List (κ × ν)) (hnd : keysNodup l) :
    keysNodup (dremove k l) :=
  List.Nodup.sublist (keys_dremove_sublist k l) hnd

theorem keysNodup_filter (p : κ × ν → Bool) (l : List (κ × ν)) (hnd : keysNodup l) :
    keysNodup (l.filter p) :=
  List.Nodup.sublist (List.Sublist.map Prod.fst (List.filter_sublist l)) hnd

theorem dget_filter_some {p : κ × ν → Bool} {l : List (κ × ν)} {k : κ} {v : ν}
    (hnd : keysNodup l) (h : dget k (l.filter p) = some v) :
    dget k l = some v ∧ p (k, v) = true := by
  have hmem := dget_mem h
  have hmem' := List.mem_filter.mp hmem
  exact ⟨mem_dget hnd hmem'.1, hmem'.2⟩

theorem dget_filter_none {p : κ × ν → Bool} {l : List (κ × ν)} {k : κ} {v : ν}
    (hnd : keysNodup l) (h : dget k l = some v) (hp : p (k, v) = false) :
    dget k (l.filter p) = none := by
  cases hres : dget k (l.filter p) with
  | none => rfl
  | some w =>
    have := dget_filter_some hnd hres
    rw [h] at this
    cases Option.some.inj this.1
    rw [hp] at this
    exact absurd this.2 (by simp)

theorem length_dinsert_of_mem (k : κ) (v : ν) (l : List (κ × ν))
    (h : k ∈ l.map Prod.fst) : (dinsert k v l).length = l.length := by
  induction l with
  | nil => simp at h
  | cons p r ih =>
    obtain ⟨a, b⟩ := p
    rw [List.map_cons, List.mem_cons] at h
    by_cases hk : a = k
    · simp [dinsert, hk]
    · have h2 : k ∈ r.map Prod.fst := by
        rcases h with h1 | h1
        · exact absurd h1.symm hk
        · exact h1
      simp [dinsert, hk, ih h2]

/-! ## Helper lemmas about the trigger operations -/

/-- `_execute_trigger` always makes exactly one Action Gate call (the call
precedes the inspection of its outcome). -/
theorem executeTriggerBE_calls (env : Env) (s : BEState) (k : Int) (t : BETrigger) :
    (executeTriggerBE env s k t).2 = [⟨k, t⟩] := by
  unfold executeTriggerBE
  cases env.setSlToEntry t.ticket with
  | raise => rfl
  | ok r => by_cases h : r.success <;> simp [h]

theorem executeTriggerPTP_calls (env : Env) (s : PTPState) (k : String) (t : PTPTrigger) :
    (executeTriggerPTP env s k t).2 = [⟨k, t⟩] := by
  unfold executeTriggerPTP
  cases env.closeCustom t.ticket t.close_percentage with
  | raise => rfl
  | ok r => by_cases h : r.success <;> simp [h]

/-! ## Claim theorems -/

/-- C1. Condition evaluation: for an active trigger whose position exists,
a long (`is_buy`) trigger fires (invokes the action) iff the current bid is
at least the threshold, and a short trigger fires iff the current ask is at
most the threshold; the bid is consulted for long triggers and the ask for
short triggers, and when the condition does not fire the state is returned
unchanged with no Action Gate call.  Stated for both the breakeven and the
partial-TP `_check_trigger`. -/
theorem condition_evaluation :
    (∀ (env : Env) (s : BEState) (k : Int) (t : BETrigger) (pos : PositionInfo),
      env.getPosition t.ticket = some pos →
      (∀ b : ℚ, t.is_buy = true → env.getBid t.symbol = some b →
        (((checkTriggerBE env s k t).2 ≠ []) ↔ t.trigger_price ≤ b) ∧
        (b < t.trigger_price → checkTriggerBE env s k t = (s, []))) ∧
      (∀ a : ℚ, t.is_buy = false → env.getAsk t.symbol = some a →
        (((checkTriggerBE env s k t).2 ≠ []) ↔ a ≤ t.trigger_price) ∧
        (t.trigger_price < a → checkTriggerBE env s k t = (s, [])))) ∧
    (∀ (env : Env) (s : PTPState) (k : String) (t : PTPTrigger) (pos : PositionInfo),
      env.getPosition t.ticket = some pos →
      (∀ b : ℚ, t.is_buy = true → env.getBid t.symbol = some b →
        (((checkTriggerPTP env s k t).2 ≠ []) ↔ t.trigger_price ≤ b) ∧
        (b < t.trigger_price → checkTriggerPTP env s k t = (s, []))) ∧
      (∀ a : ℚ, t.is_buy = false → env.getAsk t.symbol = some a →
        (((checkTriggerPTP env s k t).2 ≠ []) ↔ a ≤ t.trigger_price) ∧
        (t.trigger_price < a → checkTriggerPTP env s k t = (s, [])))) := by
  constructor
  · intro env s k t pos hpos
    constructor
    · intro b hbuy hbid
      have hbranch : checkTriggerBE env s k t =
          if t.trigger_price ≤ b then executeTriggerBE env s k t else (s, []) := by
        unfold checkTriggerBE
        rw [hpos, hbuy]
        simp [hbid, ge_iff_le]
      constructor
      · rw [hbranch]
        by_cases hfire : t.trigger_price ≤ b
        · simp [hfire, executeTriggerBE_calls]
        · simp [hfire]
      · intro hlow
        rw [hbranch, if_neg (not_le.mpr hlow)]
    · intro a hsell hask
      have hbranch : checkTriggerBE env s k t =
          if a ≤ t.trigger_price then executeTriggerBE env s k t else (s, []) := by
        unfold checkTriggerBE
        rw [hpos, hsell]
        simp [hask]
      constructor
      · rw [hbranch]
        by_cases hfire : a ≤ t.trigger_price
        · simp [hfire, executeTriggerBE_calls]
        · simp [hfire]
      · intro hhigh
        rw [hbranch, if_neg (not_le.mpr hhigh)]
  · intro env s k t pos hpos
    constructor
    · intro b hbuy hbid
      have hbranch : checkTriggerPTP env s k t =
          if t.trigger_price ≤ b then executeTriggerPTP env s k t else (s, []) := by
        unfold checkTriggerPTP
        rw [hpos, hbuy]
        simp [hbid, ge_iff_le]
      constructor
      · rw [hbranch]
        by_cases hfire : t.trigger_price ≤ b
        · simp [hfire, executeTriggerPTP_calls]
        · simp [hfire]
      · intro hlow
        rw [hbranch, if_neg (not_le.mpr hlow)]
    · intro a hsell hask
      have hbranch : checkTriggerPTP env s k t =
          if a ≤ t.trigger_price then executeTriggerPTP env s k t else (s, []) := by
        unfold checkTriggerPTP
        rw [hpos, hsell]
        simp [hask]
      constructor
      · rw [hbranch]
        by_cases hfire : a ≤ t.trigger_price
        · simp [hfire, executeTriggerPTP_calls]
        · simp [hfire]
      · intro hhigh
        rw [hbranch, if_neg (not_le.mpr hhigh)]

/-- C1 witness: a concrete long trigger at threshold 11/10 with bid 1
does not fire and leaves the state unchanged. -/
theorem condition_evaluation_witness :
    checkTriggerBE (mkEnv (some posW) (some 1) (some 1)
        (.ok { success := true }) (.ok { success := true })) beS1 7 beTrigW =
      (beS1, []) := by
  refine ((condition_evaluation.1 _ beS1 7 beTrigW posW rfl).1 1 rfl rfl).2
    (by norm_num [beTrigW])

/-- C3. Breakeven add validation: when the position exists,
`add_trigger(ticket, trigger_price)` succeeds and stores an active trigger
(persisting the new mapping) iff the trigger price is strictly beyond
entry in the favorable direction; otherwise (including a price exactly at
entry) it fails and returns the state — trigger mapping, backing file and
monitoring flag — unchanged. -/
theorem be_add_trigger_validation (env : Env) (s : BEState) (ticket : Int)
    (price : ℚ) (pos : PositionInfo) (hpos : env.getPosition ticket = some pos) :
    (((pos.is_buy = true ∧ pos.price_open < price) ∨
      (pos.is_buy = false ∧ price < pos.price_open)) →
      (addTriggerBE env s ticket price).2.1 = true ∧
      dget ticket (addTriggerBE env s ticket price).1.triggers =
        some { ticket := ticket, symbol := pos.symbol, trigger_price := price,
               created_at := env.now, is_buy := pos.is_buy,
               executed := false, executed_at := none } ∧
      (addTriggerBE env s ticket price).1.file =
        saveBE (addTriggerBE env s ticket price).1.triggers) ∧
    (((pos.is_buy = true ∧ price ≤ pos.price_open) ∨
      (pos.is_buy = false ∧ pos.price_open ≤ price)) →
      (addTriggerBE env s ticket price).2.1 = false ∧
      (addTriggerBE env s ticket price).1 = s) := by
  constructor
  · rintro (⟨hb, hlt⟩ | ⟨hb, hlt⟩)
    · have hcond : ¬price ≤ pos.price_open := not_le.mpr hlt
      refine ⟨?_, ?_, ?_⟩
      · simp only [addTriggerBE, hpos, hb, if_true, hcond, if_false]
      · simp only [addTriggerBE, hpos, hb, if_true, hcond, if_false]
        split <;> simp [BEState.save, dget_dinsert_self, hb]
      · simp only [addTriggerBE, hpos, hb, if_true, hcond, if_false]
        split <;> rfl
    · have hcond : ¬price ≥ pos.price_open := not_le.mpr hlt
      refine ⟨?_, ?_, ?_⟩
      · simp only [addTriggerBE, hpos, hb, Bool.false_eq_true, if_false, hcond]
      · simp only [addTriggerBE, hpos, hb, Bool.false_eq_true, if_false, hcond]
        split <;> simp [BEState.save, dget_dinsert_self, hb]
      · simp only [addTriggerBE, hpos, hb, Bool.false_eq_true, if_false, hcond]
        split <;> rfl
  · rintro (⟨hb, hle⟩ | ⟨hb, hle⟩)
    · simp [addTriggerBE, hpos, hb, hle]
    · simp [addTriggerBE, hpos, hb, ge_iff_le, hle]

/-- C3 witness: for a concrete buy position opened at 1, adding a trigger
at 11/10 succeeds and stores it, and adding a trigger exactly at the entry
price 1 fails without touching the state. -/
theorem be_add_trigger_validation_witness :
    ((addTriggerBE (mkEnv (some posW) none none (.ok { success := true })
        (.ok { success := true })) beS0 7 (11 / 10)).2.1 = true) ∧
    ((addTriggerBE (mkEnv (some posW) none none (.ok { success := true })
        (.ok { success := true })) beS0 7 1).1 = beS0) := by
  constructor
  · exact ((be_add_trigger_validation _ beS0 7 (11 / 10) posW rfl).1
      (Or.inl ⟨by decide, by norm_num [posW]⟩)).1
  · exact ((be_add_trigger_validation _ beS0 7 1 posW rfl).2
      (Or.inl ⟨by decide, by norm_num [posW]⟩)).2

/-- C4. Partial-close add validation: a close percentage outside the open
interval (0, 100) — including exactly 0 and exactly 100 —, a missing
position, or a trigger price not strictly beyond the position's current
price in the favorable direction makes `add_trigger` fail, and every
failure return leaves the state — mapping, backing file, monitoring
flag — completely unchanged. -/
theorem ptp_add_trigger_validation (env : Env) (s : PTPState) (ticket : Int)
    (price pct : ℚ) :
    (((pct ≤ 0 ∨ 100 ≤ pct) ∨ env.getPosition ticket = none ∨
      (∃ pos, env.getPosition ticket = some pos ∧
        ((pos.is_buy = true ∧ price ≤ pos.price_current) ∨
         (pos.is_buy = false ∧ pos.price_current ≤ price)))) →
      (addTriggerPTP env s ticket price pct).2.1 = false) ∧
    ((addTriggerPTP env s ticket price pct).2.1 = false →
      (addTriggerPTP env s ticket price pct).1 = s) := by
  constructor
  · rintro (hpct | hmiss | ⟨pos, hpos, hside⟩)
    · simp [addTriggerPTP, hpct]
    · by_cases hpct : pct ≤ 0 ∨ pct ≥ 100
      · simp [addTriggerPTP, hpct]
      · simp [addTriggerPTP, hpct, hmiss]
    · by_cases hpct : pct ≤ 0 ∨ pct ≥ 100
      · simp [addTriggerPTP, hpct]
      · rcases hside with ⟨hb, hle⟩ | ⟨hb, hle⟩
        · simp [addTriggerPTP, hpct, hpos, hb, hle]
        · simp [addTriggerPTP, hpct, hpos, hb, ge_iff_le, hle]
  · intro hfail
    by_cases hpct : pct ≤ 0 ∨ pct ≥ 100
    · simp [addTriggerPTP, hpct]
    · cases hpos : env.getPosition ticket with
      | none => simp [addTriggerPTP, hpct, hpos]
      | some pos =>
        by_cases hb : pos.is_buy
        · by_cases hle : price ≤ pos.price_current
          · simp [addTriggerPTP, hpct, hpos, hb, hle]
          · exfalso
            simp [addTriggerPTP, hpct, hpos, hb, hle] at hfail
        · by_cases hle : price ≥ pos.price_current
          · simp [addTriggerPTP, hpct, hpos, hb, hle]
          · exfalso
            simp [addTriggerPTP, hpct, hpos, hb, hle] at hfail

/-- C4 witness: with no position available, adding a partial-close trigger
with percentage exactly 100 fails and leaves a concrete state unchanged. -/
theorem ptp_add_trigger_validation_witness :
    (addTriggerPTP (mkEnv none none none (.ok { success := true })
        (.ok { success := true })) ptpS0 7 (11 / 10) 100).2.1 = false ∧
    (addTriggerPTP (mkEnv none none none (.ok { success := true })
        (.ok { success := true })) ptpS0 7 (11 / 10) 100).1 = ptpS0 := by
  refine ⟨(ptp_add_trigger_validation _ ptpS0 7 (11 / 10) 100).1
    (Or.inl (Or.inr (by norm_num))), ?_⟩
  exact (ptp_add_trigger_validation _ ptpS0 7 (11 / 10) 100).2
    ((ptp_add_trigger_validation _ ptpS0 7 (11 / 10) 100).1
      (Or.inl (Or.inr (by norm_num))))

/-- C8. Action-failure atomicity: when the Action Gate returns failure or
raises for a fired trigger, `_execute_trigger` returns the state completely
unchanged (trigger still in the mapping with `executed = False`,
`executed_at`/`volume_closed` untouched, file untouched) after exactly one
attempted call, so the trigger is re-attempted on the next tick.  Stated
for both managers. -/
theorem action_failure_atomicity :
    (∀ (env : Env) (s : BEState) (k : Int) (t : BETrigger),
      (env.setSlToEntry t.ticket = .raise ∨
        ∃ res, env.setSlToEntry t.ticket = .ok res ∧ res.success = false) →
      executeTriggerBE env s k t = (s, [⟨k, t⟩])) ∧
    (∀ (env : Env) (s : PTPState) (k : String) (t : PTPTrigger),
      (env.closeCustom t.ticket t.close_percentage = .raise ∨
        ∃ res, env.closeCustom t.ticket t.close_percentage = .ok res ∧
          res.success = false) →
      executeTriggerPTP env s k t = (s, [⟨k, t⟩])) := by
  constructor
  · rintro env s k t (hraise | ⟨res, hres, hfail⟩)
    · simp [executeTriggerBE, hraise]
    · simp [executeTriggerBE, hres, hfail]
  · rintro env s k t (hraise | ⟨res, hres, hfail⟩)
    · simp [executeTriggerPTP, hraise]
    · simp [executeTriggerPTP, hres, hfail]

/-- C8 witness: with an Action Gate that reports failure, executing a
concrete fired breakeven trigger returns the state unchanged. -/
theorem action_failure_atomicity_witness :
    executeTriggerBE (mkEnv (some posW) (some (12 / 10)) none
        (.ok { success := false }) (.ok { success := false })) beS1 7 beTrigW =
      (beS1, [⟨7, beTrigW⟩]) :=
  action_failure_atomicity.1 _ beS1 7 beTrigW
    (Or.inr ⟨{ success := false }, rfl, rfl⟩)

/-- C9. Partial-close volume computation: for a position of volume 0.20
and close percentage 50, `close_position_custom` computes and requests a
close volume of exactly 0.10 whenever the symbol's volume step is 0.01,
its minimum volume is at most 0.10 and its maximum at least 0.10. -/
theorem partial_close_volume (si : SymbolInfo) (hstep : si.volume_step = 1 / 100)
    (hmin : si.volume_min ≤ 1 / 10) (hmax : 1 / 10 ≤ si.volume_max) :
    close_custom_volume (1 / 5) 50 si = 1 / 10 := by
  have e1 : ((1 : ℚ) / 5 * (50 / 100)) / (1 / 100) = 10 := by norm_num
  have e2 : pyRound (10 : ℚ) = 10 := by
    unfold pyRound
    norm_num
  have e3 : max si.volume_min (min ((1 : ℚ) / 10) si.volume_max) = 1 / 10 :=
    by rw [min_eq_left hmax, max_eq_right hmin]
  simp only [close_custom_volume, normalize_lot, pyRoundTo, hstep, e1, e2]
  norm_num [e3, e2]

/-- C9 witness: with step 0.01, minimum 0.01 and maximum 100, the
requested close volume for a 0.20-lot position at 50% is exactly 0.10. -/
theorem partial_close_volume_witness :
    close_custom_volume (1 / 5) 50
      { volume_min := 1 / 100, volume_max := 100, volume_step := 1 / 100 } =
      1 / 10 :=
  partial_close_volume
    { volume_min := 1 / 100, volume_max := 100, volume_step := 1 / 100 }
    rfl (by norm_num) (by norm_num)

/-- C10. The breakeven store is keyed by position ticket, so each ticket
holds at most one breakeven trigger; a valid `add_trigger` for a ticket
that already has a trigger — active or executed — succeeds and silently
replaces the existing record with the fresh active trigger (same mapping
size, all other tickets untouched). -/
theorem be_single_trigger_per_ticket (env : Env) (s : BEState) (ticket : Int)
    (price : ℚ) (pos : PositionInfo) (old : BETrigger)
    (hpos : env.getPosition ticket = some pos)
    (hold : dget ticket s.triggers = some old)
    (hbeyond : (pos.is_buy = true ∧ pos.price_open < price) ∨
               (pos.is_buy = false ∧ price < pos.price_open)) :
    (addTriggerBE env s ticket price).2.1 = true ∧
    dget ticket (addTriggerBE env s ticket price).1.triggers =
      some { ticket := ticket, symbol := pos.symbol, trigger_price := price,
             created_at := env.now, is_buy := pos.is_buy,
             executed := false, executed_at := none } ∧
    (addTriggerBE env s ticket price).1.triggers.length = s.triggers.length ∧
    (∀ k : Int, k ≠ ticket →
      dget k (addTriggerBE env s ticket price).1.triggers = dget k s.triggers) := by
  have hmem : ticket ∈ s.triggers.map Prod.fst := fst_mem_of_dget hold
  rcases hbeyond with ⟨hb, hlt⟩ | ⟨hb, hlt⟩
  · have hcond : ¬price ≤ pos.price_open := not_le.mpr hlt
    refine ⟨?_, ?_, ?_, ?_⟩
    · simp only [addTriggerBE, hpos, hb, if_true, hcond, if_false]
    · simp only [addTriggerBE, hpos, hb, if_true, hcond, if_false]
      split <;> simp [BEState.save, dget_dinsert_self, hb]
    · simp only [addTriggerBE, hpos, hb, if_true, hcond, if_false]
      split <;> simp [BEState.save, length_dinsert_of_mem _ _ _ hmem]
    · intro k hk
      simp only [addTriggerBE, hpos, hb, if_true, hcond, if_false]
      split <;> simp [BEState.save, dget_dinsert_ne _ _ _ _ hk]
  · have hcond : ¬price ≥ pos.price_open := not_le.mpr hlt
    refine ⟨?_, ?_, ?_, ?_⟩
    · simp only [addTriggerBE, hpos, hb, Bool.false_eq_true, if_false, hcond]
    · simp only [addTriggerBE, hpos, hb, Bool.false_eq_true, if_false, hcond]
      split <;> simp [BEState.save, dget_dinsert_self, hb]
    · simp only [addTriggerBE, hpos, hb, Bool.false_eq_true, if_false, hcond]
      split <;> simp [BEState.save, length_dinsert_of_mem _ _ _ hmem]
    · intro k hk
      simp only [addTriggerBE, hpos, hb, Bool.false_eq_true, if_false, hcond]
      split <;> simp [BEState.save, dget_dinsert_ne _ _ _ _ hk]

/-- C10 witness: re-adding a trigger for ticket 7, which already holds an
executed trigger, succeeds, replaces it with the fresh active trigger and
keeps the mapping size at one. -/
theorem be_single_trigger_per_ticket_witness :
    ((addTriggerBE (mkEnv (some posW) none none (.ok { success := true })
        (.ok { success := true })) beS1x 7 (12 / 10)).2.1 = true) ∧
    ((addTriggerBE (mkEnv (some posW) none none (.ok { success := true })
        (.ok { success := true })) beS1x 7 (12 / 10)).1.triggers.length =
      beS1x.triggers.length) := by
  constructor
  · exact (be_single_trigger_per_ticket _ beS1x 7 (12 / 10) posW beTrigWX rfl
      rfl (Or.inl ⟨by decide, by norm_num [posW]⟩)).1
  · exact (be_single_trigger_per_ticket _ beS1x 7 (12 / 10) posW beTrigWX rfl
      rfl (Or.inl ⟨by decide, by norm_num [posW]⟩)).2.2.1

/-! ## Serialization lemmas -/

theorem from_dict_to_dict_be (t : BETrigger) :
    BETrigger.from_dict (BETrigger.to_dict t) = some t := by
  obtain ⟨ti, sy, tp, ca, ib, ex, exAt⟩ := t
  cases exAt <;> rfl

theorem from_dict_to_dict_ptp (t : PTPTrigger) :
    PTPTrigger.from_dict (PTPTrigger.to_dict t) = some t := by
  obtain ⟨tid, ti, sy, tp, cp, ca, ib, ex, exAt, vc⟩ := t
  cases exAt <;> cases vc <;> rfl

theorem loadEntriesBE_save (m : List (Int × BETrigger)) :
    loadEntriesBE (saveBE m) = some m := by
  induction m with
  | nil => rfl
  | cons p r ih =>
    have ih' : loadEntriesBE (List.map (fun q => (q.1, q.2.to_dict)) r) = some r := ih
    simp [saveBE, loadEntriesBE, from_dict_to_dict_be, ih']

theorem loadEntriesPTP_save (m : List (String × PTPTrigger)) :
    loadEntriesPTP (savePTP m) = some m := by
  induction m with
  | nil => rfl
  | cons p r ih =>
    have ih' : loadEntriesPTP (List.map (fun q => (q.1, q.2.to_dict)) r) = some r := ih
    simp [savePTP, loadEntriesPTP, from_dict_to_dict_ptp, ih']

theorem loadEntriesBE_eq_none_iff (rs : List (Int × Record)) :
    loadEntriesBE rs = none ↔ ∃ p ∈ rs, BETrigger.from_dict p.2 = none := by
  induction rs with
  | nil => simp [loadEntriesBE]
  | cons p r ih =>
    constructor
    · intro h
      cases hd : BETrigger.from_dict p.2 with
      | none => exact ⟨p, List.mem_cons_self _ _, hd⟩
      | some t =>
        cases hr : loadEntriesBE r with
        | none =>
          obtain ⟨q, hq, hq2⟩ := ih.mp hr
          exact ⟨q, List.mem_cons_of_mem _ hq, hq2⟩
        | some m =>
          simp [loadEntriesBE, hd, hr] at h
    · rintro ⟨q, hq, hq2⟩
      rcases List.mem_cons.mp hq with rfl | hq3
      · simp [loadEntriesBE, hq2]
      · cases hd : BETrigger.from_dict q.2 <;>
          simp [loadEntriesBE, hd, ih.mpr ⟨q, hq3, hq2⟩]

theorem loadEntriesBE_length (rs : List (Int × Record))
    (m : List (Int × BETrigger)) (h : loadEntriesBE rs = some m) :
    m.length = rs.length := by
  induction rs generalizing m with
  | nil =>
    simp [loadEntriesBE] at h
    simp [← h]
  | cons p r ih =>
    cases hd : BETrigger.from_dict p.2 with
    | none => simp [loadEntriesBE, hd] at h
    | some t =>
      cases hr : loadEntriesBE r with
      | none => simp [loadEntriesBE, hd, hr] at h
      | some m' =>
        simp [loadEntriesBE, hd, hr] at h
        simp [← h, ih m' hr]

/-- C6. Persistence round-trip: serializing a trigger and parsing it back
reproduces every field; saving a whole mapping and reloading it yields a
field-identical mapping, and the active-trigger collection is unchanged by
the round trip.  Stated for both managers. -/
theorem persistence_round_trip :
    (∀ t : BETrigger, BETrigger.from_dict (BETrigger.to_dict t) = some t) ∧
    (∀ t : PTPTrigger, PTPTrigger.from_dict (PTPTrigger.to_dict t) = some t) ∧
    (∀ m : List (Int × BETrigger), loadEntriesBE (saveBE m) = some m) ∧
    (∀ m : List (String × PTPTrigger), loadEntriesPTP (savePTP m) = some m) ∧
    (∀ s s₀ : BEState,
      (loadTriggersBE (FileData.records (saveBE s.triggers)) s₀).triggers =
        s.triggers ∧
      getAllTriggersBE (loadTriggersBE (FileData.records (saveBE s.triggers)) s₀) =
        getAllTriggersBE s) ∧
    (∀ s s₀ : PTPState,
      (loadTriggersPTP (FileData.records (savePTP s.triggers)) s₀).triggers =
        s.triggers ∧
      getAllTriggersPTP (loadTriggersPTP (FileData.records (savePTP s.triggers)) s₀) =
        getAllTriggersPTP s) := by
  refine ⟨from_dict_to_dict_be, from_dict_to_dict_ptp, loadEntriesBE_save,
    loadEntriesPTP_save, ?_, ?_⟩
  · intro s s₀
    have h1 : (loadTriggersBE (FileData.records (saveBE s.triggers)) s₀).triggers =
        s.triggers := by
      simp only [loadTriggersBE, loadEntriesBE_save]
      split <;> rfl
    exact ⟨h1, by simp [getAllTriggersBE, h1]⟩
  · intro s s₀
    have h1 : (loadTriggersPTP (FileData.records (savePTP s.triggers)) s₀).triggers =
        s.triggers := by
      simp only [loadTriggersPTP, loadEntriesPTP_save]
      split <;> rfl
    exact ⟨h1, by simp [getAllTriggersPTP, h1]⟩

/-- C5 counterexample: a file holding one well-formed record (ticket 7) and
one record missing required fields (ticket 8) loads NO triggers — the
well-formed record is not kept, refuting per-record tolerance — and a
well-formed record carrying one unknown extra field is likewise rejected
instead of having the field ignored. -/
theorem load_tolerance_cex :
    (loadTriggersBE (FileData.records [(7, goodBERec), (8, badBERec)])
      beS0).triggers = [] ∧
    (loadTriggersBE (FileData.records [(7, extraBERec)]) beS0).triggers = [] := by
  constructor <;> rfl

/-- C5 (amended): loading never crashes and is all-or-nothing: a missing
file or unreadable JSON leaves the state unchanged; any record the
dataclass constructor rejects — one missing required fields, or one with
an unknown extra field, which is not ignored — makes the whole load abort
with a diagnostic and the previous trigger mapping (empty at startup)
kept, dropping the file's well-formed records too; a file whose records
all parse replaces the mapping with exactly the file's content. -/
theorem load_tolerance (s : BEState) (rs : List (Int × Record)) :
    loadTriggersBE FileData.missing s = s ∧
    loadTriggersBE FileData.corrupt s = s ∧
    ((∃ p ∈ rs, BETrigger.from_dict p.2 = none) →
      loadTriggersBE (FileData.records rs) s = s) ∧
    (∀ (r : Record) (kv : String × JVal), kv ∈ r →
      kv.1 ∉ beFields → BETrigger.from_dict r = none) ∧
    (∀ m, loadEntriesBE rs = some m →
      (loadTriggersBE (FileData.records rs) s).triggers = m ∧
      m.length = rs.length) := by
  refine ⟨rfl, rfl, ?_, ?_, ?_⟩
  · intro hbad
    have hnone : loadEntriesBE rs = none := (loadEntriesBE_eq_none_iff rs).mpr hbad
    simp [loadTriggersBE, hnone]
  · intro r kv hmem hk
    have hall : r.all (fun kv => beFields.contains kv.1) = false :=
      List.all_eq_false.mpr ⟨kv, hmem, by simp [hk]⟩
    unfold BETrigger.from_dict
    rw [hall]
    simp
  · intro m hm
    refine ⟨?_, loadEntriesBE_length rs m hm⟩
    simp only [loadTriggersBE, hm]
    split <;> rfl

/-- C5 witness: a file consisting of the single malformed record leaves a
concrete state unchanged. -/
theorem load_tolerance_witness :
    loadTriggersBE (FileData.records [(8, badBERec)]) beS1 = beS1 :=
  (load_tolerance beS1 [(8, badBERec)]).2.2.1
    ⟨(8, badBERec), List.mem_cons_self _ _, rfl⟩

/-! ## Monitor-pass lemmas -/

theorem mem_dinsert {p : κ × ν} {k : κ} {v : ν} {l : List (κ × ν)}
    (h : p ∈ dinsert k v l) : p = (k, v) ∨ p ∈ l := by
  induction l with
  | nil => simpa [dinsert] using h
  | cons q r ih =>
    by_cases hk : q.1 = k
    · rcases List.mem_cons.mp (by simpa [dinsert, hk] using h) with h1 | h2
      · exact Or.inl h1
      · exact Or.inr (List.mem_cons_of_mem _ h2)
    · rcases List.mem_cons.mp (by simpa [dinsert, hk] using h) with h1 | h2
      · exact Or.inr (h1 ▸ List.mem_cons_self _ _)
      · rcases ih h2 with h3 | h4
        · exact Or.inl h3
        · exact Or.inr (List.mem_cons_of_mem _ h4)

theorem dget_dremove_sub {j k : κ} {v : ν} {l : List (κ × ν)}
    (hnd : keysNodup l) (h : dget k (dremove j l) = some v) :
    dget k l = some v := by
  by_cases hk : k = j
  · subst hk
    rw [dget_dremove_self _ _ hnd] at h
    cases h
  · rwa [dget_dremove_ne _ _ _ hk] at h

theorem evolBE_refl (env : Env) (a : List (Int × BETrigger)) : evolBE env a a :=
  fun _ t' h => ⟨t', h, Or.inl rfl⟩

theorem evolBE_trans {env : Env} {a b c : List (Int × BETrigger)}
    (h1 : evolBE env a b) (h2 : evolBE env b c) : evolBE env a c := by
  intro k t' hc
  obtain ⟨tm, hbm, hcase⟩ := h2 k t' hc
  obtain ⟨ta, ham, hcase2⟩ := h1 k tm hbm
  refine ⟨ta, ham, ?_⟩
  rcases hcase with h3 | ⟨hex, hsucc, h3⟩
  · subst h3
    exact hcase2
  · subst h3
    rcases hcase2 with h4 | ⟨hex2, hsucc2, h4⟩
    · subst h4
      exact Or.inr ⟨hex, hsucc, rfl⟩
    · subst h4
      simp at hex

theorem evolPTP_refl (env : Env) (a : List (String × PTPTrigger)) : evolPTP env a a :=
  fun _ t' h => ⟨t', h, Or.inl rfl⟩

theorem evolPTP_trans {env : Env} {a b c : List (String × PTPTrigger)}
    (h1 : evolPTP env a b) (h2 : evolPTP env b c) : evolPTP env a c := by
  intro k t' hc
  obtain ⟨tm, hbm, hcase⟩ := h2 k t' hc
  obtain ⟨ta, ham, hcase2⟩ := h1 k tm hbm
  refine ⟨ta, ham, ?_⟩
  rcases hcase with h3 | ⟨hex, res, hres, hsucc, h3⟩
  · subst h3
    exact hcase2
  · subst h3
    rcases hcase2 with h4 | ⟨hex2, res2, hres2, hsucc2, h4⟩
    · subst h4
      exact Or.inr ⟨hex, res, hres, hsucc, rfl⟩
    · subst h4
      simp at hex

/-- The three ways `_execute_trigger` can leave the breakeven state:
unchanged (action raised or failed), the checked binding marked executed
(success branch, with `executed_at` set together with `executed`), or a
redundant save when the trigger object is no longer in the dict. -/
theorem executeTriggerBE_state (env : Env) (s : BEState) (k : Int) (t : BETrigger) :
    (executeTriggerBE env s k t).1 = s ∨
    (dget k s.triggers = some t ∧
      (∃ res, env.setSlToEntry t.ticket = ActionOutcome.ok res ∧
        res.success = true) ∧
      (executeTriggerBE env s k t).1 =
        BEState.save { s with
          triggers := dinsert k
              { t with executed := true, executed_at := some env.now }
              s.triggers }) ∨
    (executeTriggerBE env s k t).1 = BEState.save s := by
  unfold executeTriggerBE
  split
  · exact Or.inl rfl
  · rename_i r hout
    split
    · rename_i hsuc
      simp only []
      split
      · rename_i hget
        exact Or.inr (Or.inl ⟨hget, ⟨r, hout, hsuc⟩, rfl⟩)
      · exact Or.inr (Or.inr rfl)
    · exact Or.inl rfl

theorem executeTriggerPTP_state (env : Env) (s : PTPState) (k : String)
    (t : PTPTrigger) :
    (executeTriggerPTP env s k t).1 = s ∨
    (dget k s.triggers = some t ∧
      (∃ res, env.closeCustom t.ticket t.close_percentage = ActionOutcome.ok res ∧
        res.success = true ∧
        (executeTriggerPTP env s k t).1 =
          PTPState.save { s with
            triggers := dinsert k
                { t with executed := true, executed_at := some env.now, volume_closed := res.volume }
                s.triggers })) ∨
    (executeTriggerPTP env s k t).1 = PTPState.save s := by
  unfold executeTriggerPTP
  split
  · exact Or.inl rfl
  · rename_i r hout
    split
    · rename_i hsuc
      simp only []
      split
      · rename_i hget
        exact Or.inr (Or.inl ⟨hget, ⟨r, hout, hsuc, rfl⟩⟩)
      · exact Or.inr (Or.inr rfl)
    · exact Or.inl rfl

/-- The four ways `_check_trigger` can leave the breakeven state: no-op
(position gone but trigger already absent, quote missing, condition not
fired, action failed or raised), reconciliation removal, successful
execution marking the checked binding, or a redundant save. -/
theorem checkTriggerBE_state (env : Env) (s : BEState) (k : Int) (t : BETrigger) :
    (env.getPosition t.ticket = none ∧
      ((dget t.ticket s.triggers = none ∧ (checkTriggerBE env s k t).1 = s) ∨
       (checkTriggerBE env s k t).1 =
         BEState.save { s with triggers := dremove t.ticket s.triggers })) ∨
    (env.getPosition t.ticket ≠ none ∧
      ((checkTriggerBE env s k t).1 = s ∨
       (dget k s.triggers = some t ∧
         (∃ res, env.setSlToEntry t.ticket = ActionOutcome.ok res ∧
           res.success = true) ∧
         (checkTriggerBE env s k t).1 =
           BEState.save { s with
             triggers := dinsert k
                 { t with executed := true, executed_at := some env.now }
                 s.triggers }) ∨
       (checkTriggerBE env s k t).1 = BEState.save s)) := by
  unfold checkTriggerBE
  split
  · rename_i hpos
    refine Or.inl ⟨hpos, ?_⟩
    unfold removeTriggerBE
    split
    · rename_i hg
      exact Or.inl ⟨hg, rfl⟩
    · exact Or.inr rfl
  · rename_i pos hpos
    refine Or.inr ⟨by simp [hpos], ?_⟩
    split
    · exact Or.inl rfl
    · rename_i cp hcp
      simp only []
      split <;> split
      · exact executeTriggerBE_state env s k t
      · exact Or.inl rfl
      · exact executeTriggerBE_state env s k t
      · exact Or.inl rfl

/-- The analogue of `checkTriggerBE_state` for the partial-TP manager
(removal is keyed by the trigger id). -/
theorem checkTriggerPTP_state (env : Env) (s : PTPState) (k : String)
    (t : PTPTrigger) :
    (env.getPosition t.ticket = none ∧
      ((dget t.trigger_id s.triggers = none ∧ (checkTriggerPTP env s k t).1 = s) ∨
       (checkTriggerPTP env s k t).1 =
         PTPState.save { s with triggers := dremove t.trigger_id s.triggers })) ∨
    (env.getPosition t.ticket ≠ none ∧
      ((checkTriggerPTP env s k t).1 = s ∨
       (dget k s.triggers = some t ∧
         (∃ res, env.closeCustom t.ticket t.close_percentage = ActionOutcome.ok res ∧
           res.success = true ∧
           (checkTriggerPTP env s k t).1 =
             PTPState.save { s with
               triggers := dinsert k
                   { t with executed := true, executed_at := some env.now, volume_closed := res.volume }
                   s.triggers })) ∨
       (checkTriggerPTP env s k t).1 = PTPState.save s)) := by
  unfold checkTriggerPTP
  split
  · rename_i hpos
    refine Or.inl ⟨hpos, ?_⟩
    unfold removeTriggerPTP
    split
    · rename_i hg
      exact Or.inl ⟨hg, rfl⟩
    · exact Or.inr rfl
  · rename_i pos hpos
    refine Or.inr ⟨by simp [hpos], ?_⟩
    split
    · exact Or.inl rfl
    · rename_i cp hcp
      simp only []
      split <;> split
      · exact executeTriggerPTP_state env s k t
      · exact Or.inl rfl
      · exact executeTriggerPTP_state env s k t
      · exact Or.inl rfl

/-- `_check_trigger` emits no Action Gate call, or exactly the call for
the checked trigger, and only when its position still exists. -/
theorem checkTriggerBE_calls_shape (env : Env) (s : BEState) (k : Int)
    (t : BETrigger) :
    (checkTriggerBE env s k t).2 = [] ∨
    ((checkTriggerBE env s k t).2 = [⟨k, t⟩] ∧
      env.getPosition t.ticket ≠ none) := by
  unfold checkTriggerBE
  split
  · exact Or.inl rfl
  · rename_i pos hpos
    split
    · exact Or.inl rfl
    · rename_i cp hcp
      simp only []
      split <;> split
      · exact Or.inr ⟨executeTriggerBE_calls env s k t, by simp [hpos]⟩
      · exact Or.inl rfl
      · exact Or.inr ⟨executeTriggerBE_calls env s k t, by simp [hpos]⟩
      · exact Or.inl rfl

theorem checkTriggerPTP_calls_shape (env : Env) (s : PTPState) (k : String)
    (t : PTPTrigger) :
    (checkTriggerPTP env s k t).2 = [] ∨
    ((checkTriggerPTP env s k t).2 = [⟨k, t⟩] ∧
      env.getPosition t.ticket ≠ none) := by
  unfold checkTriggerPTP
  split
  · exact Or.inl rfl
  · rename_i pos hpos
    split
    · exact Or.inl rfl
    · rename_i cp hcp
      simp only []
      split <;> split
      · exact Or.inr ⟨executeTriggerPTP_calls env s k t, by simp [hpos]⟩
      · exact Or.inl rfl
      · exact Or.inr ⟨executeTriggerPTP_calls env s k t, by simp [hpos]⟩
      · exact Or.inl rfl

theorem mem_dremove {q : κ × ν} {k : κ} {l : List (κ × ν)}
    (h : q ∈ dremove k l) : q ∈ l := by
  induction l with
  | nil => simpa [dremove] using h
  | cons p r ih =>
    by_cases hk : p.1 = k
    · exact List.mem_cons_of_mem _ (by simpa [dremove, hk] using h)
    · rcases List.mem_cons.mp (by simpa [dremove, hk] using h) with h1 | h2
      · exact h1 ▸ List.mem_cons_self _ _
      · exact List.mem_cons_of_mem _ (ih h2)

/-- Folding the breakeven snapshot preserves key uniqueness and evolves
the dict only as `evolBE` allows. -/
theorem tickBE_fold_evol (env : Env) :
    ∀ (l : List (Int × BETrigger)) (s : BEState) (acc : List BECall),
      (∀ p ∈ l, p.2.executed = false) → keysNodup s.triggers →
      keysNodup (l.foldl (beTickStep env) (s, acc)).1.triggers ∧
      evolBE env s.triggers (l.foldl (beTickStep env) (s, acc)).1.triggers := by
  intro l
  induction l with
  | nil =>
    intro s acc _ hnd
    exact ⟨hnd, evolBE_refl env s.triggers⟩
  | cons p rest ih =>
    intro s acc hact hnd
    rw [List.foldl_cons]
    have h1 : keysNodup (checkTriggerBE env s p.1 p.2).1.triggers ∧
        evolBE env s.triggers (checkTriggerBE env s p.1 p.2).1.triggers := by
      rcases checkTriggerBE_state env s p.1 p.2 with
        ⟨_, ⟨_, heq⟩ | heq⟩ | ⟨_, heq | ⟨hget, hsucc, heq⟩ | heq⟩
      · rw [heq]
        exact ⟨hnd, evolBE_refl env s.triggers⟩
      · rw [heq]
        simp only [BEState.save]
        exact ⟨keysNodup_dremove _ _ hnd,
          fun k' t' h => ⟨t', dget_dremove_sub hnd h, Or.inl rfl⟩⟩
      · rw [heq]
        exact ⟨hnd, evolBE_refl env s.triggers⟩
      · rw [heq]
        simp only [BEState.save]
        refine ⟨keysNodup_dinsert _ _ _ hnd, ?_⟩
        intro k' t' h
        by_cases hk' : k' = p.1
        · subst hk'
          rw [dget_dinsert_self] at h
          cases h
          exact ⟨p.2, hget, Or.inr ⟨hact p (List.mem_cons_self _ _), hsucc, rfl⟩⟩
        · rw [dget_dinsert_ne _ _ _ _ hk'] at h
          exact ⟨t', h, Or.inl rfl⟩
      · rw [heq]
        exact ⟨hnd, evolBE_refl env s.triggers⟩
    have h2 := ih (checkTriggerBE env s p.1 p.2).1
      (acc ++ (checkTriggerBE env s p.1 p.2).2)
      (fun q hq => hact q (List.mem_cons_of_mem _ hq)) h1.1
    exact ⟨h2.1, evolBE_trans h1.2 h2.2⟩

/-- Every Action Gate call of a breakeven fold comes from a snapshot
entry whose position still exists. -/
theorem tickBE_fold_calls (env : Env) :
    ∀ (l : List (Int × BETrigger)) (s : BEState) (acc : List BECall)
      (c : BECall), c ∈ (l.foldl (beTickStep env) (s, acc)).2 →
      c ∈ acc ∨ ∃ p ∈ l, c = ⟨p.1, p.2⟩ ∧ env.getPosition p.2.ticket ≠ none := by
  intro l
  induction l with
  | nil =>
    intro s acc c hc
    exact Or.inl hc
  | cons p rest ih =>
    intro s acc c hc
    rw [List.foldl_cons] at hc
    rcases ih (checkTriggerBE env s p.1 p.2).1
        (acc ++ (checkTriggerBE env s p.1 p.2).2) c hc with hacc | ⟨q, hq, he⟩
    · rcases List.mem_append.mp hacc with h1 | h2
      · exact Or.inl h1
      · rcases checkTriggerBE_calls_shape env s p.1 p.2 with hsh | ⟨hsh, hp⟩
        · rw [hsh] at h2
          cases h2
        · rw [hsh] at h2
          rw [List.mem_singleton.mp h2]
          exact Or.inr ⟨p, List.mem_cons_self _ _, rfl, hp⟩
    · exact Or.inr ⟨q, List.mem_cons_of_mem _ hq, he⟩

theorem tickPTP_fold_evol (env : Env) :
    ∀ (l : List (String × PTPTrigger)) (s : PTPState) (acc : List PTPCall),
      (∀ p ∈ l, p.2.executed = false) → keysNodup s.triggers →
      keysNodup (l.foldl (ptpTickStep env) (s, acc)).1.triggers ∧
      evolPTP env s.triggers (l.foldl (ptpTickStep env) (s, acc)).1.triggers := by
  intro l
  induction l with
  | nil =>
    intro s acc _ hnd
    exact ⟨hnd, evolPTP_refl env s.triggers⟩
  | cons p rest ih =>
    intro s acc hact hnd
    rw [List.foldl_cons]
    have h1 : keysNodup (checkTriggerPTP env s p.1 p.2).1.triggers ∧
        evolPTP env s.triggers (checkTriggerPTP env s p.1 p.2).1.triggers := by
      rcases checkTriggerPTP_state env s p.1 p.2 with
        ⟨_, ⟨_, heq⟩ | heq⟩ | ⟨_, heq | ⟨hget, res, hres, hsucc, heq⟩ | heq⟩
      · rw [heq]
        exact ⟨hnd, evolPTP_refl env s.triggers⟩
      · rw [heq]
        simp only [PTPState.save]
        exact ⟨keysNodup_dremove _ _ hnd,
          fun k' t' h => ⟨t', dget_dremove_sub hnd h, Or.inl rfl⟩⟩
      · rw [heq]
        exact ⟨hnd, evolPTP_refl env s.triggers⟩
      · rw [heq]
        simp only [PTPState.save]
        refine ⟨keysNodup_dinsert _ _ _ hnd, ?_⟩
        intro k' t' h
        by_cases hk' : k' = p.1
        · subst hk'
          rw [dget_dinsert_self] at h
          cases h
          exact ⟨p.2, hget,
            Or.inr ⟨hact p (List.mem_cons_self _ _), res, hres, hsucc, rfl⟩⟩
        · rw [dget_dinsert_ne _ _ _ _ hk'] at h
          exact ⟨t', h, Or.inl rfl⟩
      · rw [heq]
        exact ⟨hnd, evolPTP_refl env s.triggers⟩
    have h2 := ih (checkTriggerPTP env s p.1 p.2).1
      (acc ++ (checkTriggerPTP env s p.1 p.2).2)
      (fun q hq => hact q (List.mem_cons_of_mem _ hq)) h1.1
    exact ⟨h2.1, evolPTP_trans h1.2 h2.2⟩

theorem tickPTP_fold_calls (env : Env) :
    ∀ (l : List (String × PTPTrigger)) (s : PTPState) (acc : List PTPCall)
      (c : PTPCall), c ∈ (l.foldl (ptpTickStep env) (s, acc)).2 →
      c ∈ acc ∨ ∃ p ∈ l, c = ⟨p.1, p.2⟩ ∧ env.getPosition p.2.ticket ≠ none := by
  intro l
  induction l with
  | nil =>
    intro s acc c hc
    exact Or.inl hc
  | cons p rest ih =>
    intro s acc c hc
    rw [List.foldl_cons] at hc
    rcases ih (checkTriggerPTP env s p.1 p.2).1
        (acc ++ (checkTriggerPTP env s p.1 p.2).2) c hc with hacc | ⟨q, hq, he⟩
    · rcases List.mem_append.mp hacc with h1 | h2
      · exact Or.inl h1
      · rcases checkTriggerPTP_calls_shape env s p.1 p.2 with hsh | ⟨hsh, hp⟩
        · rw [hsh] at h2
          cases h2
        · rw [hsh] at h2
          rw [List.mem_singleton.mp h2]
          exact Or.inr ⟨p, List.mem_cons_self _ _, rfl, hp⟩
    · exact Or.inr ⟨q, List.mem_cons_of_mem _ hq, he⟩

/-- `add_trigger` either rejects (state unchanged) or stores the fresh
active trigger under its ticket. -/
theorem addTriggerBE_state (env : Env) (s : BEState) (ticket : Int) (price : ℚ) :
    (addTriggerBE env s ticket price).1 = s ∨
    (∃ pos, env.getPosition ticket = some pos ∧
      (addTriggerBE env s ticket price).1.triggers =
        dinsert ticket
          { ticket := ticket, symbol := pos.symbol, trigger_price := price,
            created_at := env.now, is_buy := pos.is_buy,
            executed := false, executed_at := none } s.triggers) := by
  unfold addTriggerBE
  split
  · exact Or.inl rfl
  · rename_i pos hpos
    split
    · split
      · exact Or.inl rfl
      · refine Or.inr ⟨pos, hpos, ?_⟩
        simp only []
        split <;> rfl
    · split
      · exact Or.inl rfl
      · refine Or.inr ⟨pos, hpos, ?_⟩
        simp only []
        split <;> rfl

/-- C2. Terminal executed status (breakeven engine): across every engine
operation — add, remove, clear-executed, monitor tick — key uniqueness is
preserved; a trigger whose `executed` flag is `True` is never evaluated
(no Action Gate call is made on its behalf) and its record is never
mutated: it either survives unchanged, is deleted, or — only for an
explicit `add` on its ticket — is replaced by a brand-new active record;
and the only way any record's `executed` flag becomes `True` is the
success branch of the tick's action execution, which simultaneously sets
`executed_at`; hence along any operation sequence `executed` never
reverts from `True` to `False` on a trigger record. -/
theorem executed_terminal (env : Env) (op : BEOp) (s : BEState)
    (hnd : keysNodup s.triggers) :
    keysNodup (stepBE env op s).1.triggers ∧
    (∀ k t, dget k s.triggers = some t → t.executed = true →
      (∀ c ∈ (stepBE env op s).2, c.key ≠ k) ∧
      (dget k (stepBE env op s).1.triggers = none ∨
       dget k (stepBE env op s).1.triggers = some t ∨
       (∃ price pos, op = BEOp.add k price ∧ env.getPosition k = some pos ∧
         dget k (stepBE env op s).1.triggers =
           some { ticket := k, symbol := pos.symbol, trigger_price := price,
                  created_at := env.now, is_buy := pos.is_buy,
                  executed := false, executed_at := none }))) ∧
    (∀ k t', dget k (stepBE env op s).1.triggers = some t' →
      t'.executed = true →
      dget k s.triggers = some t' ∨
      (op = BEOp.tick ∧
        ∃ t res, dget k s.triggers = some t ∧ t.executed = false ∧
          env.setSlToEntry t.ticket = ActionOutcome.ok res ∧
          res.success = true ∧
          t' = { t with executed := true, executed_at := some env.now })) := by
  cases op with
  | add ticket price =>
    simp only [stepBE]
    rcases addTriggerBE_state env s ticket price with heq | ⟨pos, hpos, htr⟩
    · rw [heq]
      refine ⟨hnd, ?_, ?_⟩
      · intro k t hkt _
        exact ⟨fun c hc => absurd hc (List.not_mem_nil c),
          Or.inr (Or.inl hkt)⟩
      · intro k t' h _
        exact Or.inl h
    · refine ⟨?_, ?_, ?_⟩
      · rw [htr]
        exact keysNodup_dinsert _ _ _ hnd
      · intro k t hkt _
        refine ⟨fun c hc => absurd hc (List.not_mem_nil c), ?_⟩
        by_cases hk : k = ticket
        · subst hk
          refine Or.inr (Or.inr ⟨price, pos, rfl, hpos, ?_⟩)
          rw [htr]
          exact dget_dinsert_self _ _ _
        · refine Or.inr (Or.inl ?_)
          rw [htr, dget_dinsert_ne _ _ _ _ hk]
          exact hkt
      · intro k t' h hexec
        by_cases hk : k = ticket
        · subst hk
          rw [htr, dget_dinsert_self] at h
          cases h
          simp at hexec
        · rw [htr, dget_dinsert_ne _ _ _ _ hk] at h
          exact Or.inl h
  | remove ticket =>
    simp only [stepBE]
    cases hg : dget ticket s.triggers with
    | none =>
      have hres : (removeTriggerBE s ticket).1 = s := by
        unfold removeTriggerBE
        rw [hg]
      rw [hres]
      refine ⟨hnd, ?_, ?_⟩
      · intro k t hkt _
        exact ⟨fun c hc => absurd hc (List.not_mem_nil c),
          Or.inr (Or.inl hkt)⟩
      · intro k t' h _
        exact Or.inl h
    | some w =>
      have hres : (removeTriggerBE s ticket).1 =
          BEState.save { s with triggers := dremove ticket s.triggers } := by
        unfold removeTriggerBE
        rw [hg]
      rw [hres]
      simp only [BEState.save]
      refine ⟨keysNodup_dremove _ _ hnd, ?_, ?_⟩
      · intro k t hkt _
        refine ⟨fun c hc => absurd hc (List.not_mem_nil c), ?_⟩
        by_cases hk : k = ticket
        · subst hk
          exact Or.inl (dget_dremove_self _ _ hnd)
        · refine Or.inr (Or.inl ?_)
          rw [dget_dremove_ne _ _ _ hk]
          exact hkt
      · intro k t' h _
        exact Or.inl (dget_dremove_sub hnd h)
  | clearExec =>
    simp only [stepBE, clearExecutedBE, BEState.save]
    refine ⟨keysNodup_filter _ _ hnd, ?_, ?_⟩
    · intro k t hkt hexec
      refine ⟨fun c hc => absurd hc (List.not_mem_nil c), Or.inl ?_⟩
      exact dget_filter_none hnd hkt (by simp [hexec])
    · intro k t' h _
      exact Or.inl (dget_filter_some hnd h).1
  | tick =>
    simp only [stepBE]
    unfold tickBE
    by_cases hc : env.connected = true
    · rw [if_pos hc]
      have hev := tickBE_fold_evol env (s.triggers.filter (fun p => !p.2.executed))
        s [] (fun p hp => by simpa using (List.mem_filter.mp hp).2) hnd
      refine ⟨hev.1, ?_, ?_⟩
      · intro k t hkt hexec
        constructor
        · intro c hcmem hck
          rcases tickBE_fold_calls env _ s [] c hcmem with h0 | ⟨p, hp, hcp, _⟩
          · exact absurd h0 (List.not_mem_nil c)
          · have hmemf := List.mem_filter.mp hp
            have hgp : dget p.1 s.triggers = some p.2 := mem_dget hnd hmemf.1
            rw [hcp] at hck
            simp only [] at hck
            rw [hck] at hgp
            rw [hkt] at hgp
            cases hgp
            simp [hexec] at hmemf
        · cases hafter : dget k ((s.triggers.filter
              (fun p => !p.2.executed)).foldl (beTickStep env) (s, [])).1.triggers with
          | none => exact Or.inl rfl
          | some t'' =>
            obtain ⟨t0, ht0, hcase⟩ := hev.2 k t'' hafter
            rw [hkt] at ht0
            cases ht0
            rcases hcase with h3 | ⟨hex0, _, _⟩
            · subst h3
              exact Or.inr (Or.inl rfl)
            · rw [hexec] at hex0
              cases hex0
      · intro k t' hafter hexec'
        obtain ⟨t0, ht0, hcase⟩ := hev.2 k t' hafter
        rcases hcase with h3 | ⟨hex0, ⟨res, hres, hsucc⟩, h3⟩
        · subst h3
          exact Or.inl ht0
        · exact Or.inr ⟨by trivial, t0, res, ht0, hex0, hres, hsucc, h3⟩
    · rw [if_neg hc]
      refine ⟨hnd, ?_, ?_⟩
      · intro k t hkt _
        exact ⟨fun c hc0 => absurd hc0 (List.not_mem_nil c),
          Or.inr (Or.inl hkt)⟩
      · intro k t' h _
        exact Or.inl h

/-- C2 witness: a tick over a concrete state holding one already-executed
trigger preserves key uniqueness (and, by the theorem, touches neither
the record nor the Action Gate). -/
theorem executed_terminal_witness :
    keysNodup (stepBE (mkEnv (some posW) (some 2) (some 2)
      (ActionOutcome.ok { success := true }) (ActionOutcome.ok { success := true }))
      BEOp.tick beS1x).1.triggers :=
  (executed_terminal (mkEnv (some posW) (some 2) (some 2)
    (ActionOutcome.ok { success := true }) (ActionOutcome.ok { success := true }))
    BEOp.tick beS1x (by decide)).1

/-- Folding the breakeven snapshot when the Position Gate reports `ticket`
absent: key uniqueness, well-keyedness and file synchronisation are
preserved, and — provided every active trigger of that ticket is still in
the unprocessed snapshot — no active trigger of that ticket survives. -/
theorem tickBE_reconcile_fold (env : Env) (ticket : Int)
    (hpos : env.getPosition ticket = none) :
    ∀ (l : List (Int × BETrigger)) (s : BEState) (acc : List BECall),
      keysNodup s.triggers → wfBE s.triggers → s.file = saveBE s.triggers →
      (∀ k t, dget k s.triggers = some t → t.executed = false →
        t.ticket = ticket → (k, t) ∈ l) →
      keysNodup (l.foldl (beTickStep env) (s, acc)).1.triggers ∧
      wfBE (l.foldl (beTickStep env) (s, acc)).1.triggers ∧
      (l.foldl (beTickStep env) (s, acc)).1.file =
        saveBE (l.foldl (beTickStep env) (s, acc)).1.triggers ∧
      (∀ k t, dget k (l.foldl (beTickStep env) (s, acc)).1.triggers = some t →
        t.executed = false → t.ticket ≠ ticket) := by
  intro l
  induction l with
  | nil =>
    intro s acc hnd hwf hfile hinv
    refine ⟨hnd, hwf, hfile, ?_⟩
    intro k t h hact heq
    exact absurd (hinv k t h hact heq) (List.not_mem_nil _)
  | cons p rest ih =>
    intro s acc hnd hwf hfile hinv
    rw [List.foldl_cons]
    have key : keysNodup (checkTriggerBE env s p.1 p.2).1.triggers ∧
        wfBE (checkTriggerBE env s p.1 p.2).1.triggers ∧
        (checkTriggerBE env s p.1 p.2).1.file =
          saveBE (checkTriggerBE env s p.1 p.2).1.triggers ∧
        (∀ k t, dget k (checkTriggerBE env s p.1 p.2).1.triggers = some t →
          t.executed = false → t.ticket = ticket → (k, t) ∈ rest) := by
      rcases checkTriggerBE_state env s p.1 p.2 with
        ⟨hposp, ⟨hg, heq⟩ | heq⟩ | ⟨hposp, heq | ⟨hget, hsucc, heq⟩ | heq⟩
      · rw [heq]
        refine ⟨hnd, hwf, hfile, ?_⟩
        intro k t h hact hteq
        rcases List.mem_cons.mp (hinv k t h hact hteq) with h1 | h2
        · exfalso
          have h1' : p = (k, t) := h1.symm
          subst h1'
          have hk : t.ticket = k := hwf (k, t) (dget_mem h)
          rw [hk] at hg
          rw [hg] at h
          cases h
        · exact h2
      · rw [heq]
        simp only [BEState.save]
        refine ⟨keysNodup_dremove _ _ hnd, ?_, by trivial, ?_⟩
        · intro q hq
          exact hwf q (mem_dremove hq)
        · intro k t h hact hteq
          have h' : dget k s.triggers = some t := dget_dremove_sub hnd h
          rcases List.mem_cons.mp (hinv k t h' hact hteq) with h1 | h2
          · exfalso
            have h1' : p = (k, t) := h1.symm
            subst h1'
            have hk : t.ticket = k := hwf (k, t) (dget_mem h')
            rw [hk] at h
            rw [dget_dremove_self _ _ hnd] at h
            cases h
          · exact h2
      · rw [heq]
        refine ⟨hnd, hwf, hfile, ?_⟩
        intro k t h hact hteq
        rcases List.mem_cons.mp (hinv k t h hact hteq) with h1 | h2
        · exfalso
          have h1' : p = (k, t) := h1.symm
          subst h1'
          rw [hteq] at hposp
          exact hposp hpos
        · exact h2
      · rw [heq]
        simp only [BEState.save]
        refine ⟨keysNodup_dinsert _ _ _ hnd, ?_, by trivial, ?_⟩
        · intro q hq
          rcases mem_dinsert hq with h1 | h2
          · rw [h1]
            exact hwf (p.1, p.2) (dget_mem hget)
          · exact hwf q h2
        · intro k t h hact hteq
          by_cases hk : k = p.1
          · exfalso
            subst hk
            rw [dget_dinsert_self] at h
            cases h
            simp at hact
          · rw [dget_dinsert_ne _ _ _ _ hk] at h
            rcases List.mem_cons.mp (hinv k t h hact hteq) with h1 | h2
            · exfalso
              have h1' : p = (k, t) := h1.symm
              subst h1'
              exact hk rfl
            · exact h2
      · rw [heq]
        simp only [BEState.save]
        refine ⟨hnd, hwf, by trivial, ?_⟩
        intro k t h hact hteq
        rcases List.mem_cons.mp (hinv k t h hact hteq) with h1 | h2
        · exfalso
          have h1' : p = (k, t) := h1.symm
          subst h1'
          rw [hteq] at hposp
          exact hposp hpos
        · exact h2
    exact ih (checkTriggerBE env s p.1 p.2).1
      (acc ++ (checkTriggerBE env s p.1 p.2).2) key.1 key.2.1 key.2.2.1 key.2.2.2

/-- The partial-TP analogue of `tickBE_reconcile_fold` (removal keyed by
trigger id). -/
theorem tickPTP_reconcile_fold (env : Env) (ticket : Int)
    (hpos : env.getPosition ticket = none) :
    ∀ (l : List (String × PTPTrigger)) (s : PTPState) (acc : List PTPCall),
      keysNodup s.triggers → wfPTP s.triggers → s.file = savePTP s.triggers →
      (∀ k t, dget k s.triggers = some t → t.executed = false →
        t.ticket = ticket → (k, t) ∈ l) →
      keysNodup (l.foldl (ptpTickStep env) (s, acc)).1.triggers ∧
      wfPTP (l.foldl (ptpTickStep env) (s, acc)).1.triggers ∧
      (l.foldl (ptpTickStep env) (s, acc)).1.file =
        savePTP (l.foldl (ptpTickStep env) (s, acc)).1.triggers ∧
      (∀ k t, dget k (l.foldl (ptpTickStep env) (s, acc)).1.triggers = some t →
        t.executed = false → t.ticket ≠ ticket) := by
  intro l
  induction l with
  | nil =>
    intro s acc hnd hwf hfile hinv
    refine ⟨hnd, hwf, hfile, ?_⟩
    intro k t h hact heq
    exact absurd (hinv k t h hact heq) (List.not_mem_nil _)
  | cons p rest ih =>
    intro s acc hnd hwf hfile hinv
    rw [List.foldl_cons]
    have key : keysNodup (checkTriggerPTP env s p.1 p.2).1.triggers ∧
        wfPTP (checkTriggerPTP env s p.1 p.2).1.triggers ∧
        (checkTriggerPTP env s p.1 p.2).1.file =
          savePTP (checkTriggerPTP env s p.1 p.2).1.triggers ∧
        (∀ k t, dget k (checkTriggerPTP env s p.1 p.2).1.triggers = some t →
          t.executed = false → t.ticket = ticket → (k, t) ∈ rest) := by
      rcases checkTriggerPTP_state env s p.1 p.2 with
        ⟨hposp, ⟨hg, heq⟩ | heq⟩ | ⟨hposp, heq | ⟨hget, res, hres, hsucc, heq⟩ | heq⟩
      · rw [heq]
        refine ⟨hnd, hwf, hfile, ?_⟩
        intro k t h hact hteq
        rcases List.mem_cons.mp (hinv k t h hact hteq) with h1 | h2
        · exfalso
          have h1' : p = (k, t) := h1.symm
          subst h1'
          have hk : t.trigger_id = k := hwf (k, t) (dget_mem h)
          rw [hk] at hg
          rw [hg] at h
          cases h
        · exact h2
      · rw [heq]
        simp only [PTPState.save]
        refine ⟨keysNodup_dremove _ _ hnd, ?_, by trivial, ?_⟩
        · intro q hq
          exact hwf q (mem_dremove hq)
        · intro k t h hact hteq
          have h' : dget k s.triggers = some t := dget_dremove_sub hnd h
          rcases List.mem_cons.mp (hinv k t h' hact hteq) with h1 | h2
          · exfalso
            have h1' : p = (k, t) := h1.symm
            subst h1'
            have hk : t.trigger_id = k := hwf (k, t) (dget_mem h')
            rw [hk] at h
            rw [dget_dremove_self _ _ hnd] at h
            cases h
          · exact h2
      · rw [heq]
        refine ⟨hnd, hwf, hfile, ?_⟩
        intro k t h hact hteq
        rcases List.mem_cons.mp (hinv k t h hact hteq) with h1 | h2
        · exfalso
          have h1' : p = (k, t) := h1.symm
          subst h1'
          rw [hteq] at hposp
          exact hposp hpos
        · exact h2
      · rw [heq]
        simp only [PTPState.save]
        refine ⟨keysNodup_dinsert _ _ _ hnd, ?_, by trivial, ?_⟩
        · intro q hq
          rcases mem_dinsert hq with h1 | h2
          · rw [h1]
            exact hwf (p.1, p.2) (dget_mem hget)
          · exact hwf q h2
        · intro k t h hact hteq
          by_cases hk : k = p.1
          · exfalso
            subst hk
            rw [dget_dinsert_self] at h
            cases h
            simp at hact
          · rw [dget_dinsert_ne _ _ _ _ hk] at h
            rcases List.mem_cons.mp (hinv k t h hact hteq) with h1 | h2
            · exfalso
              have h1' : p = (k, t) := h1.symm
              subst h1'
              exact hk rfl
            · exact h2
      · rw [heq]
        simp only [PTPState.save]
        refine ⟨hnd, hwf, by trivial, ?_⟩
        intro k t h hact hteq
        rcases List.mem_cons.mp (hinv k t h hact hteq) with h1 | h2
        · exfalso
          have h1' : p = (k, t) := h1.symm
          subst h1'
          rw [hteq] at hposp
          exact hposp hpos
        · exact h2
    exact ih (checkTriggerPTP env s p.1 p.2).1
      (acc ++ (checkTriggerPTP env s p.1 p.2).2) key.1 key.2.1 key.2.2.1 key.2.2.2

/-- C7. Reconciliation: when the Position Gate reports a ticket absent, a
monitor tick removes every active trigger of that ticket that it checks
(for the breakeven manager its unique one; for partial-TP every same-ticket
trigger in the snapshot), the removal is persisted — after the tick the
backing file again mirrors the mapping, which holds no active trigger of
that ticket — and the Action Gate is never invoked for that ticket during
the tick.  Hypotheses: the monitor is connected, and the state is a
reachable one (unique keys, each trigger stored under its own identity,
file in sync with the mapping). -/
theorem reconciliation :
    (∀ (env : Env) (s : BEState) (ticket : Int),
      env.connected = true → keysNodup s.triggers → wfBE s.triggers →
      s.file = saveBE s.triggers → env.getPosition ticket = none →
      (∀ k t, dget k (tickBE env s).1.triggers = some t →
        t.executed = false → t.ticket ≠ ticket) ∧
      (tickBE env s).1.file = saveBE (tickBE env s).1.triggers ∧
      (∀ c ∈ (tickBE env s).2, c.trig.ticket ≠ ticket)) ∧
    (∀ (env : Env) (s : PTPState) (ticket : Int),
      env.connected = true → keysNodup s.triggers → wfPTP s.triggers →
      s.file = savePTP s.triggers → env.getPosition ticket = none →
      (∀ k t, dget k (tickPTP env s).1.triggers = some t →
        t.executed = false → t.ticket ≠ ticket) ∧
      (tickPTP env s).1.file = savePTP (tickPTP env s).1.triggers ∧
      (∀ c ∈ (tickPTP env s).2, c.trig.ticket ≠ ticket)) := by
  constructor
  · intro env s ticket hc hnd hwf hfile hpos
    unfold tickBE
    rw [if_pos hc]
    have hfold := tickBE_reconcile_fold env ticket hpos
      (s.triggers.filter (fun p => !p.2.executed)) s [] hnd hwf hfile
      (fun k t h hact hteq =>
        List.mem_filter.mpr ⟨dget_mem h, by simp [hact]⟩)
    refine ⟨hfold.2.2.2, hfold.2.2.1, ?_⟩
    intro c hcmem hcticket
    rcases tickBE_fold_calls env _ s [] c hcmem with h0 | ⟨p, hp, hcp, hppos⟩
    · exact absurd h0 (List.not_mem_nil c)
    · rw [hcp] at hcticket
      simp only [] at hcticket
      rw [hcticket] at hppos
      exact hppos hpos
  · intro env s ticket hc hnd hwf hfile hpos
    unfold tickPTP
    rw [if_pos hc]
    have hfold := tickPTP_reconcile_fold env ticket hpos
      (s.triggers.filter (fun p => !p.2.executed)) s [] hnd hwf hfile
      (fun k t h hact hteq =>
        List.mem_filter.mpr ⟨dget_mem h, by simp [hact]⟩)
    refine ⟨hfold.2.2.2, hfold.2.2.1, ?_⟩
    intro c hcmem hcticket
    rcases tickPTP_fold_calls env _ s [] c hcmem with h0 | ⟨p, hp, hcp, hppos⟩
    · exact absurd h0 (List.not_mem_nil c)
    · rw [hcp] at hcticket
      simp only [] at hcticket
      rw [hcticket] at hppos
      exact hppos hpos

/-- C7 witness: a tick in which the position of ticket 7 is gone leaves
the concrete one-trigger partial-TP state with its backing file again
mirroring the (now trigger-free) mapping. -/
theorem reconciliation_witness :
    (tickPTP (mkEnv none none none (ActionOutcome.ok { success := true })
        (ActionOutcome.ok { success := true })) ptpS1).1.file =
      savePTP (tickPTP (mkEnv none none none (ActionOutcome.ok { success := true })
        (ActionOutcome.ok { success := true })) ptpS1).1.triggers :=
  (reconciliation.2 (mkEnv none none none (ActionOutcome.ok { success := true })
      (ActionOutcome.ok { success := true })) ptpS1 7 rfl (by decide) (by decide)
      rfl rfl).2.1

end Wenwa
